import Mathlib

/-!
Verification of the countday stock ledger engine.

This file gives a shallow embedding of the stock / batch / count services
(`StockService`, `BatchService`, `CountService`) of the countday inventory
application, together with theorems settling the specification claims about
the consumption algorithm, the reconciliation protocol and the drift
machinery.

Modelling conventions:
* Quantities are `Rat` (the schema stores them in `real` columns).
* Row ids and timestamps are `Nat`; nullable columns are `Option _`
  (ISO-8601 timestamp strings compare lexicographically, which is
  order-isomorphic to `Nat`).
* The database is a record of row lists; each service action is a pure
  function `DB → Except ServiceError _`.  A drizzle `transaction` is
  modelled by the `Except` monad: an error anywhere yields the original
  state (rollback), success yields the new state.
* SQL comparison semantics (three-valued `=`, SQLite NULL ordering, NULL
  distinctness in unique indexes) are modelled explicitly where the
  queries rely on them.
-/

namespace Countday

/-- Batch lifecycle status (`status` enum of the `batch` table). -/
inductive BatchStatus
  | active
  | archived
  | expired
  deriving DecidableEq, Repr

/-- A row of the `batch` table (schema `batchTable`). -/
structure Batch where
  id : Nat
  itemId : Nat
  qty : Rat
  unitBuyPrice : Option Rat
  status : BatchStatus
  locationId : Option Nat
  supplierId : Option Nat
  createdDate : Nat
  stockoutDate : Option Nat
  expiryDate : Option Nat
  deriving DecidableEq, Repr

/-- A row of the `item` table; only the fields the stock engine reads are
kept (identity, labels and the inherited defaults used by batch insertion). -/
structure ItemRow where
  id : Nat
  name : String
  uom : String
  defaultSupplierId : Option Nat
  defaultLocationId : Option Nat
  deriving DecidableEq, Repr

/-- A row of the `count` table; a session is open while `finishedDate` is
`none`. -/
structure CountRow where
  id : Nat
  startedDate : Nat
  finishedDate : Option Nat
  deriving DecidableEq, Repr

/-- A row of the `item_count` table.  The composite primary key is
`(countId, itemId, batchId)` with `batchId` nullable. -/
structure ItemCountRow where
  countId : Nat
  itemId : Nat
  batchId : Option Nat
  countedQty : Rat
  countedDate : Nat
  deriving DecidableEq, Repr

/-- A row of the `count_drift` table, keyed by `(countId, itemId)`. -/
structure DriftRow where
  countId : Nat
  itemId : Nat
  qtyChange : Rat
  driftDate : Nat
  deriving DecidableEq, Repr

/-- The persisted state.  `nextId` models the uuid generator for inserted
batches, `now` the wall clock (`nowIso` / `new Date()`), held fixed during
one top-level operation. -/
structure DB where
  items : List ItemRow
  batches : List Batch
  counts : List CountRow
  itemCounts : List ItemCountRow
  drifts : List DriftRow
  nextId : Nat
  now : Nat
  deriving DecidableEq, Repr

/-- The failure modes the embedded services can surface.  `emptyInsertValues`
is drizzle-orm's rejection of an `insert(...).values(rows)` call with an
empty row list. -/
inductive ServiceError
  | notFound
  | invalidArgument
  | emptyInsertValues
  | reconcileShortfall
  deriving DecidableEq, Repr

/-- SQL three-valued equality as observed by a WHERE clause or a JOIN
condition: the comparison is TRUE only when both operands are non-NULL and
equal; any comparison involving NULL evaluates to NULL and the row is
rejected.  The same test also decides uniqueness conflicts in SQLite, where
NULLs are distinct from every value including other NULLs. -/
def sqlEqTrue : Option Nat → Option Nat → Bool
  | some a, some b => a == b
  | _, _ => false

/-- SQLite `ORDER BY col ASC` comparison on a nullable column: NULL sorts
before every non-NULL value. -/
def sqliteAscLE : Option Nat → Option Nat → Bool
  | none, _ => true
  | some _, none => false
  | some a, some b => a ≤ b

/-- The consumption policies of `StockService` (`ConsumptionMethod`). -/
inductive ConsumptionMethod
  | fifo
  | lifo
  | fefo
  deriving DecidableEq, Repr

/-- The batch ordering each consumption method requests
(`consumptionMethodOrders` compiled through `createOrderByValue`):
FIFO is `createdDate asc`, LIFO is `createdDate desc`, FEFO is
`expiryDate asc` then `createdDate asc`, both keys with SQLite NULL
ordering. -/
def consLE : ConsumptionMethod → Batch → Batch → Bool
  | .fifo => fun a b => a.createdDate ≤ b.createdDate
  | .lifo => fun a b => b.createdDate ≤ a.createdDate
  | .fefo => fun a b =>
      if a.expiryDate = b.expiryDate then a.createdDate ≤ b.createdDate
      else sqliteAscLE a.expiryDate b.expiryDate

/-- The `active` batches of an item passing the extra `where` filter, in
table order (the WHERE clause of `BatchService.getAllByItem` as invoked by
`StockService.consume`). -/
def eligibleBatches (st : DB) (itemId : Nat) (excl : Batch → Bool) : List Batch :=
  st.batches.filter fun b => b.itemId == itemId && b.status == BatchStatus.active && excl b

/-- The policy-ordered batch list the consumption loop walks (the ORDER BY
of the eligible-batch query).  A stable sort refines SQLite's unspecified
tie order deterministically. -/
def consumptionOrder (m : ConsumptionMethod) (l : List Batch) : List Batch :=
  List.insertionSort (fun a b => consLE m a b = true) l

/-- Sum of the `qty` column over a list of batch rows. -/
def sumQty (l : List Batch) : Rat :=
  (l.map (·.qty)).sum

/-- `StockService.getItemQty`: total quantity of an item over batches of one
status, restricted by an optional extra filter (`SUM` of no rows is NULL,
defaulted to 0 by `asNumber`). -/
def getItemQty (st : DB) (itemId : Nat) (qtyType : BatchStatus) (excl : Batch → Bool) : Rat :=
  sumQty (st.batches.filter fun b => b.itemId == itemId && b.status == qtyType && excl b)

/-- The consumption loop of `StockService.consume`: walk the ordered batch
list; while quantity remains, take `min(batch.qty, remaining)` from the
batch, archive it with a stockout timestamp when its quantity reaches
exactly 0, and stop once nothing remains.  Returns the walked list (visited
batches updated, unvisited ones untouched) and the unconsumed remainder. -/
def consumeWalk (now : Nat) (remaining : Rat) : List Batch → List Batch × Rat
  | [] => ([], remaining)
  | b :: rest =>
    if remaining ≤ 0 then (b :: rest, remaining)
    else
      let takeQty := min b.qty remaining
      let newQty := b.qty - takeQty
      let updated :=
        if newQty = 0 then
          { b with qty := newQty, status := BatchStatus.archived, stockoutDate := some now }
        else
          { b with qty := newQty }
      let next := consumeWalk now (remaining - takeQty) rest
      (updated :: next.1, next.2)

/-- Write a batch of updated rows back into the table by id
(each visited batch is written back through `BatchService.update`; rows
whose id is not among the updates are untouched). -/
def applyUpdates (batches upds : List Batch) : List Batch :=
  batches.map fun b => (upds.find? fun u => u.id == b.id).getD b

/-- `StockService.consume`: reject a negative quantity
(`z.number().nonnegative().parse`), resolve the item (NotFound if absent),
fetch the active batches in policy order and run the consumption loop in
one transaction.  Insufficient stock is not an error: the unconsumed
remainder is returned. -/
def consume (st : DB) (itemId : Nat) (quantity : Rat) (m : ConsumptionMethod)
    (excl : Batch → Bool) : Except ServiceError (DB × Rat) :=
  if quantity < 0 then .error .invalidArgument
  else
    match st.items.find? (fun it => it.id == itemId) with
    | none => .error .notFound
    | some _ =>
      let elig := consumptionOrder m (eligibleBatches st itemId excl)
      let out := consumeWalk st.now quantity elig
      .ok ({ st with batches := applyUpdates st.batches out.1 }, out.2)

/-- The insertable columns of a batch (`insertBatchSchema`: id, createdDate
and stockoutDate are omitted and filled in by the service). -/
structure BatchInsert where
  itemId : Nat
  qty : Rat
  unitBuyPrice : Option Rat := none
  status : Option BatchStatus := none
  locationId : Option Nat := none
  supplierId : Option Nat := none
  expiryDate : Option Nat := none
  deriving DecidableEq, Repr

/-- `BatchService.insert`: requires the parent item (NotFound otherwise),
stamps the creation date, inherits the item's default location/supplier
when unspecified, and appends the new row. -/
def insertBatch (st : DB) (ins : BatchInsert) : Except ServiceError (DB × Batch) :=
  match st.items.find? (fun it => it.id == ins.itemId) with
  | none => .error .notFound
  | some item =>
    let row : Batch :=
      { id := st.nextId
        itemId := ins.itemId
        qty := ins.qty
        unitBuyPrice := ins.unitBuyPrice
        status := ins.status.getD BatchStatus.active
        locationId := ins.locationId.or item.defaultLocationId
        supplierId := ins.supplierId.or item.defaultSupplierId
        createdDate := st.now
        stockoutDate := none
        expiryDate := ins.expiryDate }
    .ok ({ st with batches := st.batches ++ [row], nextId := st.nextId + 1 }, row)

/-- The updatable columns of a batch used by the engine
(`BatchService.update` with a partial row). -/
structure BatchUpdate where
  qty : Option Rat := none
  status : Option BatchStatus := none
  stockoutDate : Option (Option Nat) := none
  deriving DecidableEq, Repr

/-- Apply a partial update to one batch row. -/
def applyBatchUpdate (u : BatchUpdate) (b : Batch) : Batch :=
  { b with
      qty := u.qty.getD b.qty
      status := u.status.getD b.status
      stockoutDate := u.stockoutDate.getD b.stockoutDate }

/-- `BatchService.update`: keyed mutation of the given columns, NotFound if
the id does not resolve. -/
def updateBatch (st : DB) (id : Nat) (u : BatchUpdate) : Except ServiceError DB :=
  if st.batches.any (fun b => b.id == id) then
    .ok { st with batches := st.batches.map fun b => if b.id == id then applyBatchUpdate u b else b }
  else .error .notFound

/-- `CountService.getActiveCountsForItem`: join `count` with the item's
`item_count` rows and keep the rows satisfying
`eq(countTable.finishedDate, sql NULL)`.  That clause compiles to
`"finishedDate" = NULL`, and in SQL a `=` comparison with NULL is never
TRUE (the intended test was `IS NULL`), so the filter is applied
faithfully through `sqlEqTrue _ none`. -/
def getActiveCountsForItem (st : DB) (itemId : Nat) : List Nat :=
  (((st.counts.flatMap fun c =>
      (st.itemCounts.filter fun ic => ic.countId == c.id && ic.itemId == itemId).map
        fun _ => c).filter
    fun c => sqlEqTrue c.finishedDate none).map (·.id))

/-- Upsert of one drift row with conflict target `(countId, itemId)` (both
columns NOT NULL): on conflict the new delta is added to the stored one and
the drift date refreshed, otherwise the row is appended. -/
def upsertDriftRow (drifts : List DriftRow) (row : DriftRow) : List DriftRow :=
  if drifts.any (fun d => d.countId == row.countId && d.itemId == row.itemId) then
    drifts.map fun d =>
      if d.countId == row.countId && d.itemId == row.itemId then
        { d with qtyChange := d.qtyChange + row.qtyChange, driftDate := row.driftDate }
      else d
  else drifts ++ [row]

/-- The `insert(countDriftTable).values(rows).onConflictDoUpdate(...)` call
of `CountService.processDrift`.  drizzle-orm rejects `values(...)` with an
empty row list (`values() must be called with at least one value`), so an
empty `rows` is an error, not a no-op. -/
def insertDriftRows (st : DB) (rows : List DriftRow) : Except ServiceError DB :=
  if rows.isEmpty then .error .emptyInsertValues
  else .ok { st with drifts := rows.foldl upsertDriftRow st.drifts }

/-- `CountService.processDrift`: a zero delta returns immediately;
otherwise every open session that already counted the item receives the
delta through the accumulating upsert. -/
def processDrift (st : DB) (itemId : Nat) (qtyChange : Rat) : Except ServiceError DB :=
  if qtyChange = 0 then .ok st
  else
    let affected := getActiveCountsForItem st itemId
    let rows := affected.map fun countId =>
      { countId := countId, itemId := itemId, qtyChange := qtyChange, driftDate := st.now }
    insertDriftRows st rows

/-- `StockService.receive`: insert the batch and process the resulting
drift inside one transaction; any failure rolls the whole call back. -/
def receive (st : DB) (ins : BatchInsert) : Except ServiceError (DB × Batch) := do
  let inserted ← insertBatch st ins
  let st2 ← processDrift inserted.1 inserted.2.itemId inserted.2.qty
  return (st2, inserted.2)

/-- `CountService.clearDrifts`: delete the drift rows of a session,
optionally restricted to one item. -/
def clearDrifts (st : DB) (countId : Nat) (itemId : Option Nat) : DB :=
  { st with
      drifts := st.drifts.filter fun d =>
        !(d.countId == countId &&
          (match itemId with
           | some i => d.itemId == i
           | none => true)) }

/-- The insertable columns of an item count (`CreateItemCountSchema`). -/
structure ItemCountInsert where
  countId : Nat
  itemId : Nat
  batchId : Option Nat := none
  countedQty : Rat
  deriving DecidableEq, Repr

/-- The conflict test of the `item_count` upsert.  The conflict target is
the composite primary key `(countId, itemId, batchId)`; SQLite treats
NULLs as distinct in unique indexes, so a row with `batchId` NULL never
conflicts with any row, including one with identical `countId`, `itemId`
and a NULL `batchId`. -/
def itemCountConflict (c : ItemCountInsert) (r : ItemCountRow) : Bool :=
  r.countId == c.countId && r.itemId == c.itemId && sqlEqTrue r.batchId c.batchId

/-- `CountService.countItem`: upsert the item count (insert, or on a
genuine uniqueness conflict update `countedQty` and `countedDate` in
place), then clear the drift rows for `(countId, itemId)`; both inside one
transaction. -/
def countItem (st : DB) (c : ItemCountInsert) : Except ServiceError (DB × ItemCountRow) :=
  let countedDate := st.now
  match st.itemCounts.find? (itemCountConflict c) with
  | some existing =>
    let upserted := { existing with countedQty := c.countedQty, countedDate := countedDate }
    let st1 :=
      { st with
          itemCounts := st.itemCounts.map fun r =>
            if itemCountConflict c r then
              { r with countedQty := c.countedQty, countedDate := countedDate }
            else r }
    .ok (clearDrifts st1 c.countId (some c.itemId), upserted)
  | none =>
    let row : ItemCountRow :=
      { countId := c.countId, itemId := c.itemId, batchId := c.batchId,
        countedQty := c.countedQty, countedDate := countedDate }
    let st1 := { st with itemCounts := st.itemCounts ++ [row] }
    .ok (clearDrifts st1 c.countId (some c.itemId), row)

/-- One ledger mutation event of a reconciliation run, recording in which
order `StockService.reconcileCount` touches the ledger. -/
inductive RecEvent
  | genericConsume (itemId : Nat) (amount : Rat)
  | genericReceive (itemId : Nat) (amount : Rat)
  | batchOverwrite (batchId : Nat) (qty : Rat)
  deriving DecidableEq, Repr

/-- Resolution of one generic (no-batch) item count inside
`StockService.reconcileCount`: compute the offset of the counted quantity
against the remaining active stock (batches named by batch-scoped entries
excluded); a zero offset does nothing, a negative offset is consumed via
the default policy (FIFO) from the non-excluded batches and any shortfall
aborts the reconciliation, a positive offset is received as a new batch.
Unlike every other service call in the file, the source never checks the
`[data, err]` tuple returned by `receive`: the service wrapper has caught
any thrown error, the nested transaction (savepoint) holding the batch
insert has rolled back, and the result is discarded — so a failing receive
leaves the state unchanged and the reconciliation continues. -/
def resolveGeneric (excl : Batch → Bool) (acc : DB × List RecEvent) (c : ItemCountRow) :
    Except ServiceError (DB × List RecEvent) :=
  let st := acc.1
  let currentQty := getItemQty st c.itemId BatchStatus.active excl
  let offsetQty := c.countedQty - currentQty
  if offsetQty = 0 then .ok acc
  else if offsetQty < 0 then do
    let out ← consume st c.itemId |offsetQty| ConsumptionMethod.fifo excl
    if out.2 = 0 then .ok (out.1, acc.2 ++ [.genericConsume c.itemId |offsetQty|])
    else .error .reconcileShortfall
  else
    match receive st { itemId := c.itemId, qty := offsetQty } with
    | .ok out => .ok (out.1, acc.2 ++ [.genericReceive c.itemId offsetQty])
    | .error _ => .ok acc

/-- Application of one batch-scoped item count inside
`StockService.reconcileCount`: overwrite the named batch's quantity with
the counted quantity and set its status to archived exactly when that
quantity is zero, active otherwise (entries with no batch id are
skipped). -/
def applyBatchAdjustment (acc : DB × List RecEvent) (c : ItemCountRow) :
    Except ServiceError (DB × List RecEvent) :=
  match c.batchId with
  | none => .ok acc
  | some bid => do
    let isDepleted := c.countedQty = 0
    let st1 ← updateBatch acc.1 bid
      { qty := some c.countedQty
        status := some (if isDepleted then BatchStatus.archived else BatchStatus.active) }
    .ok (st1, acc.2 ++ [.batchOverwrite bid c.countedQty])

/-- `StockService.reconcileCount`, instrumented with the ordered list of
ledger mutation events: partition the session's item counts into generic
and batch-scoped entries, build the exclusion filter from the batch-scoped
ids (`notInArray`, vacuously true on an empty id list), resolve all
generic entries, then apply all batch-scoped entries; everything inside
one transaction. -/
def reconcileCountAux (st : DB) (countId : Nat) : Except ServiceError (DB × List RecEvent) := do
  let counts := st.itemCounts.filter fun c => c.countId == countId
  let genericAdjustments := counts.filter fun c => c.batchId.isNone
  let batchAdjustments := counts.filter fun c => c.batchId.isSome
  let batchAdjustmentIds := batchAdjustments.filterMap (·.batchId)
  let excludeAdjustedBatches : Batch → Bool := fun b => !(batchAdjustmentIds.contains b.id)
  let afterGeneric ← genericAdjustments.foldlM (resolveGeneric excludeAdjustedBatches) (st, [])
  let afterBatch ← batchAdjustments.foldlM applyBatchAdjustment afterGeneric
  return afterBatch

/-- `StockService.reconcileCount` as a state transformer (the event list
dropped). -/
def reconcileCount (st : DB) (countId : Nat) : Except ServiceError DB :=
  (reconcileCountAux st countId).map (·.1)

/-- `CountService.finish`: inside one transaction, stamp the session's
finish timestamp (NotFound when the id resolves to no row), reconcile the
session's observations against the ledger, and delete all its drift rows;
any error rolls the whole call back and the session stays open. -/
def finish (st : DB) (id : Nat) : Except ServiceError (DB × CountRow) := do
  match st.counts.find? (fun c => c.id == id) with
  | none => .error .notFound
  | some c0 =>
    let updated := { c0 with finishedDate := some st.now }
    let st1 := { st with counts := st.counts.map fun c => if c.id == id then updated else c }
    let st2 ← reconcileCount st1 id
    let st3 := clearDrifts st2 updated.id none
    return (st3, updated)

/-- One external ledger operation, as exposed by the stock router:
a consumption, a stock receipt, or a count reconciliation. -/
inductive Op
  | consume (itemId : Nat) (quantity : Rat) (m : ConsumptionMethod)
  | receive (ins : BatchInsert)
  | reconcile (countId : Nat)

/-- Run one ledger operation; a failed operation is a rolled-back
transaction, leaving the state unchanged. -/
def applyOp (st : DB) : Op → DB
  | .consume itemId q m =>
    match consume st itemId q m (fun _ => true) with
    | .ok out => out.1
    | .error _ => st
  | .receive ins =>
    match receive st ins with
    | .ok out => out.1
    | .error _ => st
  | .reconcile countId =>
    match reconcileCount st countId with
    | .ok st1 => st1
    | .error _ => st

/-! ### Basic lemmas about the consumption walk -/

@[simp]
theorem sumQty_nil : sumQty [] = 0 := rfl

@[simp]
theorem sumQty_cons (b : Batch) (l : List Batch) : sumQty (b :: l) = b.qty + sumQty l := by
  simp [sumQty]

theorem sumQty_nonneg {l : List Batch} (h : ∀ b ∈ l, 0 ≤ b.qty) : 0 ≤ sumQty l := by
  induction l with
  | nil => simp
  | cons b rest ih =>
    have hb := h b (by simp)
    have hr := ih fun x hx => h x (by simp [hx])
    simp only [sumQty_cons]
    linarith

theorem consumeWalk_of_nonpos (now : Nat) {r : Rat} (l : List Batch) (h : r ≤ 0) :
    consumeWalk now r l = (l, r) := by
  cases l with
  | nil => rfl
  | cons b rest => simp [consumeWalk, h]

theorem consumeWalk_length (now : Nat) (r : Rat) (l : List Batch) :
    (consumeWalk now r l).1.length = l.length := by
  induction l generalizing r with
  | nil => rfl
  | cons b rest ih =>
    by_cases h : r ≤ 0
    · simp [consumeWalk, h]
    · simp only [consumeWalk, if_neg h]
      simpa using ih (r - min b.qty r)

theorem consumeWalk_ids (now : Nat) (r : Rat) (l : List Batch) :
    (consumeWalk now r l).1.map (·.id) = l.map (·.id) := by
  induction l generalizing r with
  | nil => rfl
  | cons b rest ih =>
    by_cases h : r ≤ 0
    · simp [consumeWalk, h]
    · simp only [consumeWalk, if_neg h]
      by_cases hz : b.qty - min b.qty r = 0 <;>
        simpa [hz] using ih (r - min b.qty r)

theorem consumeWalk_rem (now : Nat) {r : Rat} {l : List Batch} (hr : 0 ≤ r)
    (hq : ∀ b ∈ l, 0 ≤ b.qty) :
    (consumeWalk now r l).2 = r - min r (sumQty l) := by
  induction l generalizing r with
  | nil => simp [consumeWalk, min_eq_right hr]
  | cons b rest ih =>
    have hb : 0 ≤ b.qty := hq b (by simp)
    have hrest : ∀ x ∈ rest, 0 ≤ x.qty := fun x hx => hq x (by simp [hx])
    have hs : 0 ≤ sumQty rest := sumQty_nonneg hrest
    by_cases h : r ≤ 0
    · have hr0 : r = 0 := le_antisymm h hr
      subst hr0
      rw [consumeWalk_of_nonpos now _ (le_refl 0)]
      have hmin0 : min (0 : Rat) (sumQty (b :: rest)) = 0 :=
        min_eq_left (by simp only [sumQty_cons]; linarith)
      rw [hmin0]
      ring
    · simp only [consumeWalk, if_neg h]
      have hminr : min b.qty r ≤ r := min_le_right _ _
      have htake : 0 ≤ r - min b.qty r := by linarith
      have hrec := ih htake hrest
      rcases le_total b.qty r with hbr | hbr
      · rw [min_eq_left hbr] at hrec ⊢
        rw [hrec]
        simp only [sumQty_cons]
        rcases le_total (r - b.qty) (sumQty rest) with hc | hc
        · rw [min_eq_left hc, min_eq_left (by linarith : r ≤ b.qty + sumQty rest)]
          ring
        · rw [min_eq_right hc, min_eq_right (by linarith : b.qty + sumQty rest ≤ r)]
          ring
      · rw [min_eq_right hbr]
        rw [sub_self]
        rw [consumeWalk_of_nonpos now _ (le_refl 0)]
        simp only [sumQty_cons]
        rw [min_eq_left (by linarith : r ≤ b.qty + sumQty rest)]
        ring

theorem consumeWalk_qty_nonneg (now : Nat) {r : Rat} {l : List Batch}
    (hq : ∀ b ∈ l, 0 ≤ b.qty) :
    ∀ b₁ ∈ (consumeWalk now r l).1, 0 ≤ b₁.qty := by
  induction l generalizing r with
  | nil => simp [consumeWalk]
  | cons b rest ih =>
    have hb : 0 ≤ b.qty := hq b (by simp)
    have hrest : ∀ x ∈ rest, 0 ≤ x.qty := fun x hx => hq x (by simp [hx])
    by_cases h : r ≤ 0
    · simpa [consumeWalk, h] using hq
    · simp only [consumeWalk, if_neg h]
      intro b₁ hb₁
      rcases List.mem_cons.1 hb₁ with hhead | htail
      · subst hhead
        have hle : min b.qty r ≤ b.qty := min_le_left _ _
        by_cases hz : b.qty - min b.qty r = 0
        · simp [hz]
        · simp only [if_neg hz]
          show (0 : Rat) ≤ b.qty - min b.qty r
          linarith
      · exact ih hrest b₁ htail

theorem consumeWalk_exhaust (now : Nat) {r : Rat} {l : List Batch}
    (hq : ∀ b ∈ l, 0 ≤ b.qty) (hlt : sumQty l < r) :
    ∀ b₁ ∈ (consumeWalk now r l).1,
      b₁.qty = 0 ∧ b₁.status = BatchStatus.archived ∧ b₁.stockoutDate = some now := by
  induction l generalizing r with
  | nil => simp [consumeWalk]
  | cons b rest ih =>
    have hb : 0 ≤ b.qty := hq b (by simp)
    have hrest : ∀ x ∈ rest, 0 ≤ x.qty := fun x hx => hq x (by simp [hx])
    have hs : 0 ≤ sumQty rest := sumQty_nonneg hrest
    have hrpos : 0 < r := by
      have := sumQty_nonneg hq
      linarith
    have h : ¬ r ≤ 0 := not_le.2 hrpos
    simp only [consumeWalk, if_neg h]
    have hbr : b.qty ≤ r := by
      simp only [sumQty_cons] at hlt
      linarith
    have hmin : min b.qty r = b.qty := min_eq_left hbr
    have hz : b.qty - min b.qty r = 0 := by rw [hmin]; ring
    intro b₁ hb₁
    rcases List.mem_cons.1 hb₁ with hhead | htail
    · subst hhead
      simp [hz, hmin]
    · have hlt₂ : sumQty rest < r - min b.qty r := by
        simp only [sumQty_cons] at hlt
        rw [hmin]
        linarith
      exact ih hrest hlt₂ b₁ htail

instance : Inhabited Batch :=
  ⟨{ id := 0, itemId := 0, qty := 0, unitBuyPrice := none, status := BatchStatus.active,
     locationId := none, supplierId := none, createdDate := 0, stockoutDate := none,
     expiryDate := none }⟩

theorem sumQty_take_nonneg {l : List Batch} (hq : ∀ b ∈ l, 0 ≤ b.qty) (j : Nat) :
    0 ≤ sumQty (l.take j) :=
  sumQty_nonneg fun b hb => hq b (List.take_subset j l hb)

/-- Closed-form characterisation of the consumption loop: a batch whose
strictly preceding prefix has not yet covered the requested quantity is
visited and loses `min(qty, remaining)` (archived with a stockout stamp
exactly when it lands on 0), and a batch whose preceding prefix already
covers the request is never reached and stays untouched. -/
theorem consumeWalk_visit (now : Nat) {r : Rat} {l : List Batch}
    (hq : ∀ b ∈ l, 0 ≤ b.qty) (j : Nat) (hj : j < l.length) :
    (sumQty (l.take j) < r →
       (((consumeWalk now r l).1.getD j default).qty =
          (l.getD j default).qty - min (l.getD j default).qty (r - sumQty (l.take j)) ∧
        (((consumeWalk now r l).1.getD j default).qty = 0 →
           ((consumeWalk now r l).1.getD j default).status = BatchStatus.archived ∧
           ((consumeWalk now r l).1.getD j default).stockoutDate = some now) ∧
        (((consumeWalk now r l).1.getD j default).qty ≠ 0 →
           ((consumeWalk now r l).1.getD j default).status = (l.getD j default).status ∧
           ((consumeWalk now r l).1.getD j default).stockoutDate =
             (l.getD j default).stockoutDate) ∧
        ((consumeWalk now r l).1.getD j default).id = (l.getD j default).id ∧
        ((consumeWalk now r l).1.getD j default).itemId = (l.getD j default).itemId ∧
        ((consumeWalk now r l).1.getD j default).createdDate = (l.getD j default).createdDate ∧
        ((consumeWalk now r l).1.getD j default).expiryDate = (l.getD j default).expiryDate ∧
        ((consumeWalk now r l).1.getD j default).locationId = (l.getD j default).locationId ∧
        ((consumeWalk now r l).1.getD j default).supplierId = (l.getD j default).supplierId ∧
        ((consumeWalk now r l).1.getD j default).unitBuyPrice =
          (l.getD j default).unitBuyPrice)) ∧
    (r ≤ sumQty (l.take j) →
       (consumeWalk now r l).1.getD j default = l.getD j default) := by
  induction l generalizing r j with
  | nil => exact absurd hj (by simp)
  | cons b rest ih =>
    have hb : 0 ≤ b.qty := hq b (by simp)
    have hrest : ∀ x ∈ rest, 0 ≤ x.qty := fun x hx => hq x (by simp [hx])
    by_cases h : r ≤ 0
    · rw [consumeWalk_of_nonpos now _ h]
      refine ⟨fun hpre => ?_, fun _ => rfl⟩
      have := sumQty_take_nonneg hq j
      linarith
    · have hrpos : 0 < r := not_le.1 h
      cases j with
      | zero =>
        constructor
        · intro _
          simp only [consumeWalk, if_neg h, List.getD_cons_zero, List.take_zero, sumQty_nil,
            sub_zero]
          by_cases hz : b.qty - min b.qty r = 0
          · simp [hz]
          · simp [hz]
        · intro hle
          simp only [List.take_zero, sumQty_nil] at hle
          linarith
      | succ j₁ =>
        have hj₁ : j₁ < rest.length := by simpa using hj
        have hpre₁ : 0 ≤ sumQty (rest.take j₁) := sumQty_take_nonneg hrest j₁
        have hout :
            (consumeWalk now r (b :: rest)).1.getD (j₁ + 1) default =
              (consumeWalk now (r - min b.qty r) rest).1.getD j₁ default := by
          simp only [consumeWalk, if_neg h]
          rfl
        have hsum : sumQty ((b :: rest).take (j₁ + 1)) = b.qty + sumQty (rest.take j₁) := by
          simp [List.take_succ_cons]
        have hin : (b :: rest).getD (j₁ + 1) default = rest.getD j₁ default := rfl
        rcases le_total b.qty r with hbr | hbr
        · have hmin : min b.qty r = b.qty := min_eq_left hbr
          have hih := @ih (r - b.qty) hrest j₁ hj₁
          rw [hout, hin, hsum, hmin]
          constructor
          · intro hpre
            have hpre₂ : sumQty (rest.take j₁) < r - b.qty := by linarith
            have hfacts := hih.1 hpre₂
            refine ⟨?_, hfacts.2.1, hfacts.2.2.1, hfacts.2.2.2.1, hfacts.2.2.2.2.1,
              hfacts.2.2.2.2.2.1, hfacts.2.2.2.2.2.2.1, hfacts.2.2.2.2.2.2.2.1,
              hfacts.2.2.2.2.2.2.2.2.1, hfacts.2.2.2.2.2.2.2.2.2⟩
            rw [hfacts.1]
            congr 2
            ring
          · intro hle
            exact hih.2 (by linarith)
        · have hmin : min b.qty r = r := min_eq_right hbr
          have hih := @ih 0 hrest j₁ hj₁
          rw [hout, hin, hsum, hmin, sub_self]
          constructor
          · intro hpre
            exact absurd hpre (by push_neg; linarith)
          · intro _
            exact hih.2 (by linarith)

/-! ### Lemmas about writing updated batches back into the table -/

theorem applyUpdates_untouched {batches upds : List Batch} {b : Batch}
    (hb : b ∈ batches) (hid : ∀ u ∈ upds, u.id ≠ b.id) :
    b ∈ applyUpdates batches upds := by
  have hfind : (upds.find? fun u => u.id == b.id) = none :=
    List.find?_eq_none.2 fun u hu => by simp [hid u hu]
  exact List.mem_map.2 ⟨b, hb, by simp [hfind]⟩

theorem find?_id_of_nodup {l : List Batch} {u : Batch} (hu : u ∈ l)
    (hnd : (l.map (·.id)).Nodup) : (l.find? fun x => x.id == u.id) = some u := by
  induction l with
  | nil => simp at hu
  | cons x rest ih =>
    rcases List.mem_cons.1 hu with rfl | hmem
    · rw [List.find?_cons_of_pos _ (by simp)]
    · have hx : x.id ≠ u.id := by
        intro hxe
        have : u.id ∈ rest.map (·.id) := List.mem_map_of_mem _ hmem
        rw [← hxe] at this
        exact (List.nodup_cons.1 (by simpa using hnd)).1 this
      have hnd₂ : (rest.map (·.id)).Nodup := (List.nodup_cons.1 (by simpa using hnd)).2
      rw [List.find?_cons_of_neg _ (by simpa using hx)]
      exact ih hmem hnd₂

theorem applyUpdates_touched {batches upds : List Batch} {u b : Batch}
    (hb : b ∈ batches) (hbu : u.id = b.id) (hu : u ∈ upds)
    (hnd : (upds.map (·.id)).Nodup) :
    u ∈ applyUpdates batches upds := by
  have hfind : (upds.find? fun x => x.id == b.id) = some u := by
    rw [← hbu]
    exact find?_id_of_nodup hu hnd
  exact List.mem_map.2 ⟨b, hb, by simp [hfind]⟩

theorem applyUpdates_mem {batches upds : List Batch} :
    ∀ x ∈ applyUpdates batches upds, x ∈ batches ∨ x ∈ upds := by
  intro x hx
  rcases List.mem_map.1 hx with ⟨b, hb, hfb⟩
  rcases hfind : upds.find? fun u => u.id == b.id with _ | u
  · left
    rw [← hfb]
    simpa [hfind] using hb
  · right
    rw [← hfb]
    simpa [hfind] using List.mem_of_find?_eq_some hfind

/-! ### Lemmas about the eligible-batch query -/

theorem consumptionOrder_perm (m : ConsumptionMethod) (l : List Batch) :
    List.Perm (consumptionOrder m l) l :=
  List.perm_insertionSort _ l

theorem mem_consumptionOrder {m : ConsumptionMethod} {l : List Batch} {b : Batch} :
    b ∈ consumptionOrder m l ↔ b ∈ l :=
  (consumptionOrder_perm m l).mem_iff

theorem eligibleBatches_mem {st : DB} {itemId : Nat} {excl : Batch → Bool} {b : Batch}
    (hb : b ∈ eligibleBatches st itemId excl) :
    b ∈ st.batches ∧ b.itemId = itemId ∧ b.status = BatchStatus.active ∧ excl b = true := by
  have h2 := List.mem_filter.1 hb
  have h3 := h2.2
  simp only [Bool.and_eq_true, beq_iff_eq] at h3
  exact ⟨h2.1, h3.1.1, h3.1.2, h3.2⟩

theorem eligibleBatches_nodup_ids {st : DB} {itemId : Nat} {excl : Batch → Bool}
    (hnd : (st.batches.map (·.id)).Nodup) :
    ((eligibleBatches st itemId excl).map (·.id)).Nodup := by
  have hsub : List.Sublist (eligibleBatches st itemId excl) st.batches :=
    List.filter_sublist st.batches
  exact List.Nodup.sublist (hsub.map (·.id)) hnd

theorem consumptionOrder_nodup_ids {st : DB} {itemId : Nat} {excl : Batch → Bool}
    {m : ConsumptionMethod} (hnd : (st.batches.map (·.id)).Nodup) :
    ((consumptionOrder m (eligibleBatches st itemId excl)).map (·.id)).Nodup :=
  (((consumptionOrder_perm m _).map (·.id)).nodup_iff).2 (eligibleBatches_nodup_ids hnd)

theorem getD_mem {l : List Batch} {j : Nat} (hj : j < l.length) : l.getD j default ∈ l := by
  rw [List.getD_eq_getElem _ _ hj]
  exact List.getElem_mem hj

theorem consume_eq_ok {st : DB} {itemId : Nat} {q : Rat} {m : ConsumptionMethod}
    {excl : Batch → Bool} (hq : 0 ≤ q)
    (hfind : (st.items.find? fun it => it.id == itemId).isSome) :
    consume st itemId q m excl =
      Except.ok
        ({ st with
            batches := applyUpdates st.batches
              (consumeWalk st.now q (consumptionOrder m (eligibleBatches st itemId excl))).1 },
         (consumeWalk st.now q (consumptionOrder m (eligibleBatches st itemId excl))).2) := by
  unfold consume
  rw [if_neg (not_lt.2 hq)]
  rcases Option.isSome_iff_exists.1 hfind with ⟨it, hit⟩
  rw [hit]

/-- C1.  `StockService.consume` on an existing item and a non-negative
requested quantity never fails; it walks the policy-ordered active batches,
removing `min(batch.qty, remaining)` from every batch whose preceding
prefix has not yet covered the request (archiving it with a stockout stamp
exactly when it lands on 0) and leaving every other batch — not eligible,
or beyond the point where the remaining quantity reached 0 — unchanged;
the returned remainder is `q - min q S`, i.e. `0` when the total active
stock `S` covers the request and `q - S` (with every eligible batch at
quantity 0 and archived) when it does not. -/
theorem consume_spec (st : DB) (itemId : Nat) (q : Rat) (m : ConsumptionMethod)
    (hItem : ∃ it ∈ st.items, it.id = itemId) (hq : 0 ≤ q)
    (hqty : ∀ b ∈ st.batches, 0 ≤ b.qty) (hnd : (st.batches.map (·.id)).Nodup) :
    ∃ st₁ rem,
      consume st itemId q m (fun _ => true) = Except.ok (st₁, rem) ∧
      ∀ elig, elig = consumptionOrder m (eligibleBatches st itemId fun _ => true) →
        rem = q - min q (sumQty elig) ∧
        (q ≤ sumQty elig → rem = 0) ∧
        (sumQty elig < q → rem = q - sumQty elig ∧
          ∀ b₁ ∈ st₁.batches, b₁.id ∈ elig.map (·.id) →
            b₁.qty = 0 ∧ b₁.status = BatchStatus.archived ∧ b₁.stockoutDate = some st.now) ∧
        (∀ b ∈ st.batches, b.id ∉ elig.map (·.id) → b ∈ st₁.batches) ∧
        (∀ j, j < elig.length →
          (sumQty (elig.take j) < q →
            ∃ b₁ ∈ st₁.batches,
              b₁.id = (elig.getD j default).id ∧
              b₁.qty = (elig.getD j default).qty -
                min (elig.getD j default).qty (q - sumQty (elig.take j)) ∧
              (b₁.qty = 0 → b₁.status = BatchStatus.archived ∧
                b₁.stockoutDate = some st.now) ∧
              (b₁.qty ≠ 0 → b₁.status = (elig.getD j default).status ∧
                b₁.stockoutDate = (elig.getD j default).stockoutDate)) ∧
          (q ≤ sumQty (elig.take j) → elig.getD j default ∈ st₁.batches)) := by
  have hfind : (st.items.find? fun it => it.id == itemId).isSome := by
    rw [List.find?_isSome]
    rcases hItem with ⟨it, hmem, hid⟩
    exact ⟨it, hmem, by simp [hid]⟩
  refine ⟨_, _, consume_eq_ok hq hfind, ?_⟩
  intro elig helig
  have hqE : ∀ b ∈ elig, 0 ≤ b.qty := by
    intro b hb
    rw [helig] at hb
    exact hqty b (eligibleBatches_mem (mem_consumptionOrder.1 hb)).1
  have hndE : (elig.map (·.id)).Nodup := by
    rw [helig]
    exact consumptionOrder_nodup_ids hnd
  have hsubE : ∀ b ∈ elig, b ∈ st.batches := by
    intro b hb
    rw [helig] at hb
    exact (eligibleBatches_mem (mem_consumptionOrder.1 hb)).1
  have hids : (consumeWalk st.now q elig).1.map (·.id) = elig.map (·.id) :=
    consumeWalk_ids st.now q elig
  have hlen : (consumeWalk st.now q elig).1.length = elig.length :=
    consumeWalk_length st.now q elig
  have hndOut : ((consumeWalk st.now q elig).1.map (·.id)).Nodup := by
    rw [hids]; exact hndE
  rw [← helig]
  refine ⟨consumeWalk_rem st.now hq hqE, ?_, ?_, ?_, ?_⟩
  · intro hle
    rw [consumeWalk_rem st.now hq hqE, min_eq_left hle]
    ring
  · intro hlt
    constructor
    · rw [consumeWalk_rem st.now hq hqE, min_eq_right (le_of_lt hlt)]
    · intro b₁ hb₁ hbid
      rcases List.mem_map.1 hb₁ with ⟨b₀, hb₀, hfb⟩
      rcases hf : (consumeWalk st.now q elig).1.find? fun u => u.id == b₀.id with _ | u
      · exfalso
        have hb₁b₀ : b₁ = b₀ := by rw [← hfb]; simp [hf]
        rw [← hids] at hbid
        rcases List.mem_map.1 hbid with ⟨u, hu, huid⟩
        have := List.find?_eq_none.1 hf u hu
        rw [hb₁b₀] at huid
        simp [huid] at this
      · have hb₁u : b₁ = u := by rw [← hfb]; simp [hf]
        rw [hb₁u]
        exact consumeWalk_exhaust st.now hqE hlt u (List.mem_of_find?_eq_some hf)
  · intro b hb hbid
    refine applyUpdates_untouched hb ?_
    intro u hu hueq
    apply hbid
    rw [← hids]
    rw [← hueq]
    exact List.mem_map_of_mem _ hu
  · intro j hj
    have hj2 : j < (consumeWalk st.now q elig).1.length := by rw [hlen]; exact hj
    have hvisit := @consumeWalk_visit st.now q elig hqE j hj
    constructor
    · intro hpre
      have hfacts := hvisit.1 hpre
      refine ⟨(consumeWalk st.now q elig).1.getD j default, ?_,
        hfacts.2.2.2.1, hfacts.1, hfacts.2.1, hfacts.2.2.1⟩
      exact applyUpdates_touched (hsubE _ (getD_mem hj)) hfacts.2.2.2.1 (getD_mem hj2) hndOut
    · intro hle
      have heq := hvisit.2 hle
      have : elig.getD j default ∈ (consumeWalk st.now q elig).1 := by
        rw [← heq]
        exact getD_mem hj2
      exact applyUpdates_touched (hsubE _ (getD_mem hj)) rfl this hndOut

/-! ### The consumption-order comparators -/

theorem sqliteAscLE_total (x y : Option Nat) :
    sqliteAscLE x y = true ∨ sqliteAscLE y x = true := by
  cases x with
  | none => left; rfl
  | some a =>
    cases y with
    | none => right; rfl
    | some b => simpa [sqliteAscLE] using Nat.le_total a b

theorem sqliteAscLE_trans {x y z : Option Nat} (h1 : sqliteAscLE x y = true)
    (h2 : sqliteAscLE y z = true) : sqliteAscLE x z = true := by
  cases x <;> cases y <;> cases z <;> simp_all [sqliteAscLE] <;> omega

theorem sqliteAscLE_antisymm {x y : Option Nat} (h1 : sqliteAscLE x y = true)
    (h2 : sqliteAscLE y x = true) : x = y := by
  cases x <;> cases y <;> simp_all [sqliteAscLE] <;> omega

theorem consLE_total (m : ConsumptionMethod) (a b : Batch) :
    consLE m a b = true ∨ consLE m b a = true := by
  cases m with
  | fifo => simpa [consLE] using Nat.le_total a.createdDate b.createdDate
  | lifo => simpa [consLE] using Nat.le_total b.createdDate a.createdDate
  | fefo =>
    by_cases h : a.expiryDate = b.expiryDate
    · simp only [consLE, if_pos h, if_pos h.symm]
      simpa using Nat.le_total a.createdDate b.createdDate
    · have h2 : ¬ b.expiryDate = a.expiryDate := fun e => h e.symm
      simp only [consLE, if_neg h, if_neg h2]
      exact sqliteAscLE_total a.expiryDate b.expiryDate

theorem consLE_trans (m : ConsumptionMethod) {a b c : Batch}
    (h1 : consLE m a b = true) (h2 : consLE m b c = true) : consLE m a c = true := by
  cases m with
  | fifo =>
    simp only [consLE, decide_eq_true_eq] at h1 h2 ⊢
    omega
  | lifo =>
    simp only [consLE, decide_eq_true_eq] at h1 h2 ⊢
    omega
  | fefo =>
    simp only [consLE] at h1 h2 ⊢
    by_cases hab : a.expiryDate = b.expiryDate <;> by_cases hbc : b.expiryDate = c.expiryDate
    · rw [if_pos hab] at h1
      rw [if_pos hbc] at h2
      rw [if_pos (hab.trans hbc)]
      simp only [decide_eq_true_eq] at h1 h2 ⊢
      omega
    · rw [if_neg hbc] at h2
      have hac : ¬ a.expiryDate = c.expiryDate := by rw [hab]; exact hbc
      rw [if_neg hac, hab]
      exact h2
    · rw [if_neg hab] at h1
      have hac : ¬ a.expiryDate = c.expiryDate := by rw [← hbc]; exact hab
      rw [if_neg hac, ← hbc]
      exact h1
    · rw [if_neg hab] at h1
      rw [if_neg hbc] at h2
      by_cases hac : a.expiryDate = c.expiryDate
      · exfalso
        rw [hac] at h1
        exact hbc (sqliteAscLE_antisymm h2 h1)
      · rw [if_neg hac]
        exact sqliteAscLE_trans h1 h2

theorem consumptionOrder_sorted (m : ConsumptionMethod) (l : List Batch) :
    List.Sorted (fun a b => consLE m a b = true) (consumptionOrder m l) := by
  letI : IsTotal Batch (fun a b => consLE m a b = true) := ⟨consLE_total m⟩
  letI : IsTrans Batch (fun a b => consLE m a b = true) := ⟨fun a b c => consLE_trans m⟩
  exact List.sorted_insertionSort _ l

/-- C2 (amended).  The consumption order is determined solely by the chosen
policy: the visited list is a permutation of the eligible batches sorted by
the policy comparator, where FIFO compares by ascending receipt date, LIFO
by descending receipt date, and FEFO by ascending expiry date with batches
lacking an expiry date ordered FIRST (SQLite sorts NULL before every value
in ascending order, so they are consumed before all batches that have an
expiry), ties broken by ascending receipt date. -/
theorem consumption_order_spec (m : ConsumptionMethod) (l : List Batch) :
    List.Sorted (fun a b => consLE m a b = true) (consumptionOrder m l) ∧
    List.Perm (consumptionOrder m l) l ∧
    (∀ a b : Batch, consLE ConsumptionMethod.fifo a b = true ↔
       a.createdDate ≤ b.createdDate) ∧
    (∀ a b : Batch, consLE ConsumptionMethod.lifo a b = true ↔
       b.createdDate ≤ a.createdDate) ∧
    (∀ a b : Batch, a.expiryDate = none → b.expiryDate ≠ none →
       consLE ConsumptionMethod.fefo a b = true ∧
       consLE ConsumptionMethod.fefo b a = false) ∧
    (∀ a b : Batch, a.expiryDate = b.expiryDate →
       (consLE ConsumptionMethod.fefo a b = true ↔ a.createdDate ≤ b.createdDate)) ∧
    (∀ a b : Batch, ∀ x y : Nat, a.expiryDate = some x → b.expiryDate = some y → x < y →
       consLE ConsumptionMethod.fefo a b = true ∧
       consLE ConsumptionMethod.fefo b a = false) := by
  refine ⟨consumptionOrder_sorted m l, consumptionOrder_perm m l, ?_, ?_, ?_, ?_, ?_⟩
  · intro a b
    simp [consLE]
  · intro a b
    simp [consLE]
  · intro a b ha hb
    have hne : ¬ a.expiryDate = b.expiryDate := by rw [ha]; exact fun e => hb e.symm
    have hne₂ : ¬ b.expiryDate = a.expiryDate := fun e => hne e.symm
    rcases Option.ne_none_iff_exists.1 hb with ⟨y, hy⟩
    constructor
    · simp only [consLE]
      rw [if_neg hne, ha, ← hy]
      rfl
    · simp only [consLE]
      rw [if_neg hne₂, ha, ← hy]
      rfl
  · intro a b h
    simp [consLE, h]
  · intro a b x y hx hy hlt
    have hne : ¬ a.expiryDate = b.expiryDate := by
      rw [hx, hy]
      simp
      omega
    have hne₂ : ¬ b.expiryDate = a.expiryDate := fun e => hne e.symm
    constructor
    · simp only [consLE]
      rw [if_neg hne, hx, hy]
      simp only [sqliteAscLE]
      simpa using le_of_lt hlt
    · simp only [consLE]
      rw [if_neg hne₂, hy, hx]
      simp only [sqliteAscLE]
      simpa using not_le.2 hlt

/-! ### Concrete fixtures -/

/-- Fixture item with id 1. -/
def exItem : ItemRow :=
  { id := 1, name := "X", uom := "ea", defaultSupplierId := none, defaultLocationId := none }

/-- Fixture batch A: quantity 10, received on day 1, active. -/
def exBatchA : Batch :=
  { id := 10, itemId := 1, qty := 10, unitBuyPrice := none, status := BatchStatus.active,
    locationId := none, supplierId := none, createdDate := 1, stockoutDate := none,
    expiryDate := none }

/-- Fixture batch B: quantity 5, received on day 2, active. -/
def exBatchB : Batch :=
  { exBatchA with id := 11, qty := 5, createdDate := 2 }

/-- Fixture state: one item with batches A and B, no count sessions. -/
def exDB : DB :=
  { items := [exItem], batches := [exBatchA, exBatchB], counts := [], itemCounts := [],
    drifts := [], nextId := 100, now := 77 }

/-- Fixture open count session with id 50. -/
def exCount : CountRow :=
  { id := 50, startedDate := 5, finishedDate := none }

/-- Witness for `consume_spec` at the spec's end-to-end scenario: consuming
12 via FIFO from batches of 10 and 5 succeeds with remainder 0. -/
theorem consume_spec_witness :
    ((0 : Rat) ≤ 12 ∧ (∃ it ∈ exDB.items, it.id = 1)) ∧
    ∃ st₁ rem, consume exDB 1 12 ConsumptionMethod.fifo (fun _ => true) =
      Except.ok (st₁, rem) := by
  refine ⟨⟨by norm_num, by decide⟩, ?_⟩
  obtain ⟨st₁, rem, hok, _⟩ :=
    consume_spec exDB 1 12 ConsumptionMethod.fifo (by decide) (by norm_num) (by decide)
      (by decide)
  exact ⟨st₁, rem, hok⟩

/-- Fixture FEFO batch with an expiry date. -/
def fefoDated : Batch :=
  { exBatchA with id := 20, createdDate := 1, expiryDate := some 5 }

/-- Fixture FEFO batch without an expiry date, received later. -/
def fefoNull : Batch :=
  { exBatchA with id := 21, createdDate := 2, expiryDate := none }

/-- Counterexample to C2 as stated: under FEFO the code orders the batch
WITHOUT an expiry date before the batch with one (SQLite sorts NULL first
in ascending order), so batches lacking an expiry date are consumed first,
not last. -/
theorem fefo_nulls_first_counterexample :
    fefoNull.expiryDate = none ∧ fefoDated.expiryDate = some 5 ∧
    consumptionOrder ConsumptionMethod.fefo [fefoDated, fefoNull] = [fefoNull, fefoDated] ∧
    [fefoNull, fefoDated] ≠ [fefoDated, fefoNull] := by
  refine ⟨rfl, rfl, by decide, by decide⟩

/-- Witness for `consumption_order_spec`: its FEFO null-ordering clause
applied to the concrete fixture batches. -/
theorem consumption_order_spec_witness :
    consLE ConsumptionMethod.fefo fefoNull fefoDated = true ∧
    consLE ConsumptionMethod.fefo fefoDated fefoNull = false := by
  exact (consumption_order_spec ConsumptionMethod.fefo []).2.2.2.2.1 fefoNull fefoDated rfl
    (by decide)

instance exceptDecEq {ε α : Type} [DecidableEq ε] [DecidableEq α] :
    DecidableEq (Except ε α) := fun x y =>
  match x, y with
  | .ok a, .ok b => decidable_of_iff (a = b) (by simp)
  | .error a, .error b => decidable_of_iff (a = b) (by simp)
  | .ok _, .error _ => isFalse (by simp)
  | .error _, .ok _ => isFalse (by simp)

/-! ### The drift machinery never finds a session -/

/-- The `finishedDate = NULL` filter of `getActiveCountsForItem` is never
TRUE in SQL, so the query returns no row for any state whatsoever. -/
theorem getActiveCountsForItem_eq_nil (st : DB) (itemId : Nat) :
    getActiveCountsForItem st itemId = [] := by
  unfold getActiveCountsForItem
  have hfalse : ∀ c : CountRow, sqlEqTrue c.finishedDate none = false := by
    intro c
    cases c.finishedDate <;> rfl
  rw [List.filter_eq_nil_iff.2 fun c _ => by simp [hfalse c]]
  rfl

/-- For every non-zero delta, `processDrift` finds no affected session and
then fails on the empty `values(...)` insert. -/
theorem processDrift_ne_zero (st : DB) (itemId : Nat) {d : Rat} (hd : d ≠ 0) :
    processDrift st itemId d = Except.error ServiceError.emptyInsertValues := by
  unfold processDrift
  rw [if_neg hd, getActiveCountsForItem_eq_nil]
  rfl

/-- Fixture state for the drift claims: an open session (id 50) that has
already recorded a generic count of item 1. -/
def driftSt : DB :=
  { items := [exItem], batches := [exBatchA], counts := [exCount],
    itemCounts := [{ countId := 50, itemId := 1, batchId := none, countedQty := 3,
                     countedDate := 6 }],
    drifts := [], nextId := 100, now := 77 }

/-- C6.  Evaluation at the failing input: the state holds an open session
with an item count for item 1, yet `processDrift` with delta +3 writes no
drift row — the `finishedDate = NULL` comparison matches no session, and
the resulting empty-row insert errors.  A zero delta is still a no-op. -/
theorem drift_never_recorded :
    (∃ c ∈ driftSt.counts, c.finishedDate = none ∧
       ∃ ic ∈ driftSt.itemCounts, ic.countId = c.id ∧ ic.itemId = 1) ∧
    getActiveCountsForItem driftSt 1 = [] ∧
    processDrift driftSt 1 3 = Except.error ServiceError.emptyInsertValues ∧
    processDrift driftSt 1 0 = Except.ok driftSt := by
  refine ⟨by decide, getActiveCountsForItem_eq_nil driftSt 1,
    processDrift_ne_zero driftSt 1 (by norm_num), rfl⟩

/-- C10.  Evaluation at the failing input: with no count session at all,
receiving a batch of quantity 5 for an existing item fails — the drift
step's `getActiveCountsForItem` returns the empty set and the
`values([])` insert throws — so the batch is not persisted. -/
theorem receive_fails_without_sessions :
    exDB.counts = [] ∧
    receive exDB { itemId := 1, qty := 5 } = Except.error ServiceError.emptyInsertValues := by
  refine ⟨rfl, by decide⟩

/-- Fixture state for the item-count upsert claim: an open session with no
item counts yet. -/
def countSt : DB :=
  { items := [exItem], batches := [exBatchA], counts := [exCount], itemCounts := [],
    drifts := [], nextId := 100, now := 77 }

/-- C7.  Evaluation at the failing input: two successive generic
`countItem` calls for the same `(countId, itemId)` with no batch leave
TWO stored rows (quantities 5 and 7) instead of one updated row — a NULL
`batchId` never triggers the composite-key conflict in SQLite — while the
same pair of calls scoped to batch 10 correctly updates in place.  A
negative counted quantity is NOT rejected anywhere in the code: the count
router validates with the unrefined drizzle-zod `insertItemCountSchema`
(no minimum on `countedQty`) and the service performs no runtime check, so
the negative observation is stored. -/
theorem generic_count_upsert_duplicates :
    ((do
        let p ← countItem countSt
          { countId := 50, itemId := 1, batchId := none, countedQty := 5 }
        countItem p.1 { countId := 50, itemId := 1, batchId := none, countedQty := 7 } :
        Except ServiceError (DB × ItemCountRow)).map
      fun p => p.1.itemCounts.map fun r => (r.batchId, r.countedQty)) =
        Except.ok [(none, 5), (none, 7)] ∧
    ((do
        let p ← countItem countSt
          { countId := 50, itemId := 1, batchId := some 10, countedQty := 5 }
        countItem p.1 { countId := 50, itemId := 1, batchId := some 10, countedQty := 7 } :
        Except ServiceError (DB × ItemCountRow)).map
      fun p => p.1.itemCounts.map fun r => (r.batchId, r.countedQty)) =
        Except.ok [(some 10, 7)] ∧
    ((countItem countSt { countId := 50, itemId := 1, batchId := none, countedQty := -1 }).map
      fun p => p.1.itemCounts.map fun r => r.countedQty) = Except.ok [-1] := by
  refine ⟨by decide, by decide, by decide⟩

section ConcreteEvaluation

attribute [local semireducible] Rat.add Rat.sub

/-- Fixture for the found-stock reconciliation path: the item has no
batches at all, the open session holds one generic count of 5. -/
def foundStockSt : DB :=
  { items := [exItem], batches := [], counts := [exCount],
    itemCounts := [{ countId := 50, itemId := 1, batchId := none, countedQty := 5,
                     countedDate := 6 }],
    drifts := [], nextId := 100, now := 77 }

/-- C3.  Evaluation at the failing input: the generic entry has offset
`5 - 0 = +5`, so reconciliation should create a found-stock batch of 5;
instead the nested `receive` fails in its drift step (no session matches
`finishedDate = NULL`, and the empty `values([])` insert errors), its
savepoint rolls back the batch insert, and — because `reconcileCount`
never checks receive's returned error tuple — the reconciliation COMMITS
with the observation silently dropped: the state is returned unchanged,
with no batch created. -/
theorem reconcile_found_stock_dropped :
    getItemQty foundStockSt 1 BatchStatus.active (fun _ => true) = 0 ∧
    (∃ c ∈ foundStockSt.itemCounts, c.countId = 50 ∧ c.batchId = none ∧ c.countedQty = 5) ∧
    receive foundStockSt { itemId := 1, qty := 5 } =
      Except.error ServiceError.emptyInsertValues ∧
    reconcileCount foundStockSt 50 = Except.ok foundStockSt := by
  refine ⟨rfl, by decide, by decide, by decide⟩

/-- Fixture for the C8 counterexample: batch 10 holds 3 units; the open
session holds a batch-scoped count of batch 10 with counted quantity −2
(the service layer performs no non-negativity check of its own on stored
item counts). -/
def negCountSt : DB :=
  { items := [exItem],
    batches := [{ exBatchA with qty := 3 }],
    counts := [exCount],
    itemCounts := [{ countId := 50, itemId := 1, batchId := some 10, countedQty := -2,
                     countedDate := 6 }],
    drifts := [], nextId := 100, now := 77 }

/-- Counterexample to C8 as stated: starting from a state in which every
batch quantity is non-negative, one reconcile operation overwrites batch
10 with the stored counted quantity −2, leaving a negative batch
quantity. -/
theorem reconcile_negative_count_counterexample :
    (∀ b ∈ negCountSt.batches, 0 ≤ b.qty) ∧
    ((reconcileCount negCountSt 50).map fun s => s.batches.map (·.qty)) =
      Except.ok [(-2 : Rat)] := by
  refine ⟨by decide, by decide⟩

end ConcreteEvaluation

/-! ### Shape lemmas for the stateful operations -/

theorem except_bind_ok {α β : Type} (a : α) (f : α → Except ServiceError β) :
    (Except.ok a >>= f) = f a := rfl

theorem except_bind_err {α β : Type} (e : ServiceError) (f : α → Except ServiceError β) :
    ((Except.error e : Except ServiceError α) >>= f) = Except.error e := rfl

/-- Every batch quantity in the state is non-negative. -/
def BatchesNonneg (st : DB) : Prop := ∀ b ∈ st.batches, 0 ≤ b.qty

/-- Every stored item-count quantity in the state is non-negative. -/
def CountsNonneg (st : DB) : Prop := ∀ ic ∈ st.itemCounts, 0 ≤ ic.countedQty

theorem consume_ok_shape {st : DB} {itemId : Nat} {q : Rat} {m : ConsumptionMethod}
    {excl : Batch → Bool} {st₁ : DB} {rem : Rat}
    (h : consume st itemId q m excl = Except.ok (st₁, rem)) :
    st₁.batches = applyUpdates st.batches
      (consumeWalk st.now q (consumptionOrder m (eligibleBatches st itemId excl))).1 ∧
    st₁.items = st.items ∧ st₁.counts = st.counts ∧ st₁.itemCounts = st.itemCounts ∧
    st₁.drifts = st.drifts ∧ st₁.nextId = st.nextId ∧ st₁.now = st.now := by
  unfold consume at h
  by_cases hq : q < 0
  · rw [if_pos hq] at h
    exact absurd h (by simp)
  · rw [if_neg hq] at h
    rcases hfind : st.items.find? fun it => it.id == itemId with _ | it
    · rw [hfind] at h
      exact absurd h (by simp)
    · rw [hfind] at h
      injection h with hpair
      injection hpair with h1 h2
      subst h1
      exact ⟨rfl, rfl, rfl, rfl, rfl, rfl, rfl⟩

theorem consume_ok_nonneg {st : DB} {itemId : Nat} {q : Rat} {m : ConsumptionMethod}
    {excl : Batch → Bool} {st₁ : DB} {rem : Rat}
    (h : consume st itemId q m excl = Except.ok (st₁, rem)) (hb : BatchesNonneg st) :
    BatchesNonneg st₁ := by
  obtain ⟨hbs, -⟩ := consume_ok_shape h
  intro b hbmem
  rw [hbs] at hbmem
  rcases applyUpdates_mem _ hbmem with hm | hm
  · exact hb b hm
  · refine consumeWalk_qty_nonneg st.now ?_ b hm
    intro x hx
    exact hb x (eligibleBatches_mem (mem_consumptionOrder.1 hx)).1

theorem insertBatch_ok {st : DB} {ins : BatchInsert} {st₁ : DB} {b : Batch}
    (h : insertBatch st ins = Except.ok (st₁, b)) :
    b.qty = ins.qty ∧ b.id = st.nextId ∧ b.itemId = ins.itemId ∧
    st₁.batches = st.batches ++ [b] ∧ st₁.items = st.items ∧ st₁.counts = st.counts ∧
    st₁.itemCounts = st.itemCounts ∧ st₁.drifts = st.drifts ∧ st₁.now = st.now ∧
    st₁.nextId = st.nextId + 1 := by
  unfold insertBatch at h
  rcases hfind : st.items.find? fun it => it.id == ins.itemId with _ | item
  · rw [hfind] at h
    exact absurd h (by simp)
  · rw [hfind] at h
    injection h with hpair
    injection hpair with h1 h2
    subst h1
    subst h2
    exact ⟨rfl, rfl, rfl, rfl, rfl, rfl, rfl, rfl, rfl, rfl⟩

theorem receive_ok {st : DB} {ins : BatchInsert} {st₁ : DB} {b : Batch}
    (h : receive st ins = Except.ok (st₁, b)) :
    ins.qty = 0 ∧ b.qty = 0 ∧
    st₁.batches = st.batches ++ [b] ∧ st₁.items = st.items ∧ st₁.counts = st.counts ∧
    st₁.itemCounts = st.itemCounts ∧ st₁.drifts = st.drifts ∧ st₁.now = st.now := by
  unfold receive at h
  rcases hins : insertBatch st ins with e | p
  · rw [hins] at h
    rw [except_bind_err] at h
    exact absurd h (by simp)
  · rw [hins] at h
    rw [except_bind_ok] at h
    obtain ⟨hq, hid, hitem, hbs, hit, hct, hic, hdr, hnow, hnx⟩ := insertBatch_ok hins
    by_cases hz : p.2.qty = 0
    · have hpd : processDrift p.1 p.2.itemId p.2.qty = Except.ok p.1 := by
        unfold processDrift
        rw [if_pos hz]
      rw [hpd] at h
      rw [except_bind_ok] at h
      injection h with hpair
      injection hpair with h1 h2
      subst h1
      subst h2
      refine ⟨by rw [← hq]; exact hz, hz, hbs, hit, hct, hic, hdr, hnow⟩
    · rw [processDrift_ne_zero _ _ hz] at h
      rw [except_bind_err] at h
      exact absurd h (by simp)

theorem updateBatch_ok {st : DB} {id : Nat} {u : BatchUpdate} {st₁ : DB}
    (h : updateBatch st id u = Except.ok st₁) :
    st₁.batches = st.batches.map (fun b => if b.id == id then applyBatchUpdate u b else b) ∧
    st₁.items = st.items ∧ st₁.counts = st.counts ∧ st₁.itemCounts = st.itemCounts ∧
    st₁.drifts = st.drifts ∧ st₁.nextId = st.nextId ∧ st₁.now = st.now := by
  unfold updateBatch at h
  by_cases hex : st.batches.any fun b => b.id == id
  · rw [if_pos hex] at h
    injection h with h1
    subst h1
    exact ⟨rfl, rfl, rfl, rfl, rfl, rfl, rfl⟩
  · rw [if_neg hex] at h
    exact absurd h (by simp)

theorem foldlM_except_inv {σ α : Type} {P : σ → Prop} (l : List α)
    (f : σ → α → Except ServiceError σ)
    (hf : ∀ s a s₁, a ∈ l → f s a = Except.ok s₁ → P s → P s₁) :
    ∀ s0 s1, List.foldlM f s0 l = Except.ok s1 → P s0 → P s1 := by
  induction l with
  | nil =>
    intro s0 s1 h hP
    simp only [List.foldlM_nil] at h
    injection h with h1
    rw [← h1]
    exact hP
  | cons a rest ih =>
    intro s0 s1 h hP
    simp only [List.foldlM_cons] at h
    rcases hstep : f s0 a with e | s2
    · rw [hstep] at h
      rw [except_bind_err] at h
      exact absurd h (by simp)
    · rw [hstep] at h
      rw [except_bind_ok] at h
      exact ih (fun s x s₁ hx => hf s x s₁ (List.mem_cons_of_mem _ hx)) s2 s1 h
        (hf s0 a s2 (List.mem_cons_self a rest) hstep hP)

theorem resolveGeneric_preserves {excl : Batch → Bool} {acc acc₁ : DB × List RecEvent}
    {c : ItemCountRow} (h : resolveGeneric excl acc c = Except.ok acc₁) :
    (BatchesNonneg acc.1 → BatchesNonneg acc₁.1) ∧ acc₁.1.itemCounts = acc.1.itemCounts ∧
    acc₁.1.counts = acc.1.counts ∧ acc₁.1.drifts = acc.1.drifts ∧
    acc₁.1.now = acc.1.now := by
  unfold resolveGeneric at h
  by_cases h0 : c.countedQty - getItemQty acc.1 c.itemId BatchStatus.active excl = 0
  · rw [if_pos h0] at h
    injection h with h1
    rw [← h1]
    exact ⟨fun hP => hP, rfl, rfl, rfl, rfl⟩
  · rw [if_neg h0] at h
    by_cases hneg : c.countedQty - getItemQty acc.1 c.itemId BatchStatus.active excl < 0
    · rw [if_pos hneg] at h
      rcases hc : consume acc.1 c.itemId
          |c.countedQty - getItemQty acc.1 c.itemId BatchStatus.active excl|
          ConsumptionMethod.fifo excl with e | out
      · rw [hc] at h
        rw [except_bind_err] at h
        exact absurd h (by simp)
      · rw [hc] at h
        rw [except_bind_ok] at h
        by_cases hrem : out.2 = 0
        · rw [if_pos hrem] at h
          injection h with h1
          rw [← h1]
          obtain ⟨-, -, hct, hic, hdr, -, hnow⟩ := consume_ok_shape hc
          exact ⟨fun hP => consume_ok_nonneg hc hP, hic, hct, hdr, hnow⟩
        · rw [if_neg hrem] at h
          exact absurd h (by simp)
    · rw [if_neg hneg] at h
      rcases hr : receive acc.1
          { itemId := c.itemId,
            qty := c.countedQty - getItemQty acc.1 c.itemId BatchStatus.active excl } with
        e | p
      · rw [hr] at h
        dsimp only at h
        injection h with h1
        rw [← h1]
        exact ⟨fun hP => hP, rfl, rfl, rfl, rfl⟩
      · exfalso
        have := (receive_ok hr).1
        exact h0 this

theorem applyBatchAdjustment_preserves {acc acc₁ : DB × List RecEvent} {c : ItemCountRow}
    (h : applyBatchAdjustment acc c = Except.ok acc₁) :
    (BatchesNonneg acc.1 → 0 ≤ c.countedQty → BatchesNonneg acc₁.1) ∧
    acc₁.1.itemCounts = acc.1.itemCounts ∧
    acc₁.1.counts = acc.1.counts ∧ acc₁.1.drifts = acc.1.drifts ∧
    acc₁.1.now = acc.1.now := by
  unfold applyBatchAdjustment at h
  rcases hb : c.batchId with _ | bid
  · rw [hb] at h
    injection h with h1
    rw [← h1]
    exact ⟨fun hP _ => hP, rfl, rfl, rfl, rfl⟩
  · rw [hb] at h
    dsimp only at h
    rcases hu : updateBatch acc.1 bid
        { qty := some c.countedQty,
          status := some (if c.countedQty = 0 then BatchStatus.archived
            else BatchStatus.active) } with e | st2
    · rw [hu] at h
      rw [except_bind_err] at h
      exact absurd h (by simp)
    · rw [hu] at h
      rw [except_bind_ok] at h
      injection h with h1
      rw [← h1]
      obtain ⟨hbs, -, hct, hic, hdr, -, hnow⟩ := updateBatch_ok hu
      refine ⟨?_, hic, hct, hdr, hnow⟩
      intro hP hc b hbmem
      rw [hbs] at hbmem
      rcases List.mem_map.1 hbmem with ⟨b₀, hb₀, hfb⟩
      by_cases hbid : b₀.id == bid
      · rw [if_pos hbid] at hfb
        rw [← hfb]
        simpa [applyBatchUpdate] using hc
      · rw [if_neg hbid] at hfb
        rw [← hfb]
        exact hP b₀ hb₀

theorem reconcileCount_ok_inv {st st₁ : DB} {countId : Nat}
    (h : reconcileCount st countId = Except.ok st₁)
    (hb : BatchesNonneg st) (hc : CountsNonneg st) :
    BatchesNonneg st₁ ∧ st₁.itemCounts = st.itemCounts ∧ st₁.counts = st.counts ∧
    st₁.drifts = st.drifts ∧ st₁.now = st.now := by
  unfold reconcileCount at h
  rcases haux : reconcileCountAux st countId with e | p
  · rw [haux] at h
    exact absurd h (by simp [Except.map])
  · rw [haux] at h
    have hst₁ : st₁ = p.1 := by
      simp only [Except.map] at h
      injection h with h1
      rw [← h1]
    subst hst₁
    unfold reconcileCountAux at haux
    dsimp only at haux
    rcases hg : ((st.itemCounts.filter fun c => c.countId == countId).filter
        fun c => c.batchId.isNone).foldlM
        (resolveGeneric fun b =>
          !(((st.itemCounts.filter fun c => c.countId == countId).filter
              fun c => c.batchId.isSome).filterMap (·.batchId)).contains b.id)
        (st, []) with e | ag
    · rw [hg] at haux
      rw [except_bind_err] at haux
      exact absurd haux (by simp)
    · rw [hg] at haux
      rw [except_bind_ok] at haux
      rcases hbf : ((st.itemCounts.filter fun c => c.countId == countId).filter
          fun c => c.batchId.isSome).foldlM applyBatchAdjustment ag with e | ab
      · rw [hbf] at haux
        rw [except_bind_err] at haux
        exact absurd haux (by simp)
      · rw [hbf] at haux
        rw [except_bind_ok] at haux
        obtain rfl : ab = p := Except.ok.inj haux
        have P1 := @foldlM_except_inv (DB × List RecEvent) ItemCountRow
          (fun a : DB × List RecEvent =>
            BatchesNonneg a.1 ∧ a.1.itemCounts = st.itemCounts ∧ a.1.counts = st.counts ∧
            a.1.drifts = st.drifts ∧ a.1.now = st.now)
          _ _
          (fun s a s₁ _ hstep hPs => by
            obtain ⟨q1, q2, q3, q4, q5⟩ := resolveGeneric_preserves hstep
            exact ⟨q1 hPs.1, by rw [q2, hPs.2.1], by rw [q3, hPs.2.2.1],
              by rw [q4, hPs.2.2.2.1], by rw [q5, hPs.2.2.2.2]⟩)
          (st, []) ag hg ⟨hb, rfl, rfl, rfl, rfl⟩
        have P2 := @foldlM_except_inv (DB × List RecEvent) ItemCountRow
          (fun a : DB × List RecEvent =>
            BatchesNonneg a.1 ∧ a.1.itemCounts = st.itemCounts ∧ a.1.counts = st.counts ∧
            a.1.drifts = st.drifts ∧ a.1.now = st.now)
          _ _
          (fun s a s₁ hmem hstep hPs => by
            have hcq : 0 ≤ a.countedQty :=
              hc a (List.mem_of_mem_filter (List.mem_of_mem_filter hmem))
            obtain ⟨q1, q2, q3, q4, q5⟩ := applyBatchAdjustment_preserves hstep
            exact ⟨q1 hPs.1 hcq, by rw [q2, hPs.2.1], by rw [q3, hPs.2.2.1],
              by rw [q4, hPs.2.2.2.1], by rw [q5, hPs.2.2.2.2]⟩)
          ag ab hbf P1
        exact ⟨P2.1, P2.2.1, P2.2.2.1, P2.2.2.2.1, P2.2.2.2.2⟩

theorem reconcileCount_ok_frame {st st₁ : DB} {countId : Nat}
    (h : reconcileCount st countId = Except.ok st₁) :
    st₁.itemCounts = st.itemCounts ∧ st₁.counts = st.counts ∧
    st₁.drifts = st.drifts ∧ st₁.now = st.now := by
  unfold reconcileCount at h
  rcases haux : reconcileCountAux st countId with e | p
  · rw [haux] at h
    exact absurd h (by simp [Except.map])
  · rw [haux] at h
    have hst₁ : st₁ = p.1 := by
      simp only [Except.map] at h
      injection h with h1
      rw [← h1]
    subst hst₁
    unfold reconcileCountAux at haux
    dsimp only at haux
    rcases hg : ((st.itemCounts.filter fun c => c.countId == countId).filter
        fun c => c.batchId.isNone).foldlM
        (resolveGeneric fun b =>
          !(((st.itemCounts.filter fun c => c.countId == countId).filter
              fun c => c.batchId.isSome).filterMap (·.batchId)).contains b.id)
        (st, []) with e | ag
    · rw [hg] at haux
      rw [except_bind_err] at haux
      exact absurd haux (by simp)
    · rw [hg] at haux
      rw [except_bind_ok] at haux
      rcases hbf : ((st.itemCounts.filter fun c => c.countId == countId).filter
          fun c => c.batchId.isSome).foldlM applyBatchAdjustment ag with e | ab
      · rw [hbf] at haux
        rw [except_bind_err] at haux
        exact absurd haux (by simp)
      · rw [hbf] at haux
        rw [except_bind_ok] at haux
        obtain rfl : ab = p := Except.ok.inj haux
        have P1 := @foldlM_except_inv (DB × List RecEvent) ItemCountRow
          (fun a : DB × List RecEvent =>
            a.1.itemCounts = st.itemCounts ∧ a.1.counts = st.counts ∧
            a.1.drifts = st.drifts ∧ a.1.now = st.now)
          _ _
          (fun s a s₁ _ hstep hPs => by
            obtain ⟨-, q2, q3, q4, q5⟩ := resolveGeneric_preserves hstep
            exact ⟨by rw [q2, hPs.1], by rw [q3, hPs.2.1], by rw [q4, hPs.2.2.1],
              by rw [q5, hPs.2.2.2]⟩)
          (st, []) ag hg ⟨rfl, rfl, rfl, rfl⟩
        exact @foldlM_except_inv (DB × List RecEvent) ItemCountRow
          (fun a : DB × List RecEvent =>
            a.1.itemCounts = st.itemCounts ∧ a.1.counts = st.counts ∧
            a.1.drifts = st.drifts ∧ a.1.now = st.now)
          _ _
          (fun s a s₁ _ hstep hPs => by
            obtain ⟨-, q2, q3, q4, q5⟩ := applyBatchAdjustment_preserves hstep
            exact ⟨by rw [q2, hPs.1], by rw [q3, hPs.2.1], by rw [q4, hPs.2.2.1],
              by rw [q5, hPs.2.2.2]⟩)
          ag ab hbf P1

theorem applyOp_preserves {st : DB} (op : Op) (hb : BatchesNonneg st)
    (hc : CountsNonneg st) :
    BatchesNonneg (applyOp st op) ∧ CountsNonneg (applyOp st op) := by
  cases op with
  | consume itemId q m =>
    rcases h : consume st itemId q m (fun _ => true) with e | ⟨st₁, rem⟩
    · simp only [applyOp, h]
      exact ⟨hb, hc⟩
    · simp only [applyOp, h]
      obtain ⟨-, -, -, hic, -⟩ := consume_ok_shape h
      exact ⟨consume_ok_nonneg h hb, by rw [CountsNonneg, hic]; exact hc⟩
  | receive ins =>
    rcases h : receive st ins with e | ⟨st₁, brow⟩
    · simp only [applyOp, h]
      exact ⟨hb, hc⟩
    · simp only [applyOp, h]
      obtain ⟨-, hbq, hbs, -, -, hic, -⟩ := receive_ok h
      constructor
      · intro b hbmem
        rw [hbs] at hbmem
        rcases List.mem_append.1 hbmem with hm | hm
        · exact hb b hm
        · rw [List.mem_singleton.1 hm, hbq]
      · rw [CountsNonneg, hic]
        exact hc
  | reconcile countId =>
    rcases h : reconcileCount st countId with e | st₂
    · simp only [applyOp, h]
      exact ⟨hb, hc⟩
    · simp only [applyOp, h]
      obtain ⟨hb₂, hic, -⟩ := reconcileCount_ok_inv h hb hc
      exact ⟨hb₂, by rw [CountsNonneg, hic]; exact hc⟩

/-- C8 (amended).  For every sequence of consume, receive and reconcile
operations applied to a state in which every batch quantity AND every
stored item-count quantity is non-negative, every batch quantity stays
non-negative after each operation (a failed operation rolls back to the
unchanged state).  The extra item-count hypothesis is needed because a
batch-scoped reconciliation overwrites a batch quantity with the stored
counted quantity unchecked. -/
theorem ops_preserve_nonneg (ops : List Op) (st : DB)
    (hb : BatchesNonneg st) (hc : CountsNonneg st) :
    BatchesNonneg (ops.foldl applyOp st) ∧ CountsNonneg (ops.foldl applyOp st) := by
  induction ops generalizing st with
  | nil => exact ⟨hb, hc⟩
  | cons op rest ih =>
    rw [List.foldl_cons]
    obtain ⟨hb₁, hc₁⟩ := applyOp_preserves op hb hc
    exact ih (applyOp st op) hb₁ hc₁

/-- Witness for `ops_preserve_nonneg`: a consume of 12 followed by a
reconcile of session 50 on the concrete two-batch state keeps every batch
quantity non-negative. -/
theorem ops_preserve_nonneg_witness :
    BatchesNonneg exDB ∧ CountsNonneg exDB ∧
    BatchesNonneg
      ([Op.consume 1 12 ConsumptionMethod.fifo, Op.reconcile 50].foldl applyOp exDB) := by
  have hb : BatchesNonneg exDB := by
    unfold BatchesNonneg
    decide
  have hc : CountsNonneg exDB := by
    unfold CountsNonneg
    decide
  exact ⟨hb, hc,
    (ops_preserve_nonneg [Op.consume 1 12 ConsumptionMethod.fifo, Op.reconcile 50] exDB
      hb hc).1⟩

/-- C5 (amended).  `CountService.finish` runs inside one transaction: a
session id that does not resolve fails with NotFound before any ledger
work; an error surfaced by the reconciliation propagates and fails the
whole finish, leaving the prior state unchanged (the transaction rolls
back and the session stays open); and on success the returned session row
is stamped with the finish timestamp and stored, the ledger is exactly
the reconciliation's result, and every drift row of the session is
deleted.  Finish is however NOT all-or-nothing with respect to the
recorded observations: a generic entry with a positive offset is silently
dropped in a committing finish, because `reconcileCount` never checks the
error returned by the nested found-stock `receive` (see
`finish_partial_commit_counterexample`). -/
theorem finish_spec (st : DB) (id : Nat) :
    (st.counts.find? (fun c => c.id == id) = none →
       finish st id = Except.error ServiceError.notFound) ∧
    ∀ c0, st.counts.find? (fun c => c.id == id) = some c0 →
      (∀ e, reconcileCount
          { st with counts := st.counts.map fun c =>
              if c.id == id then { c0 with finishedDate := some st.now } else c } id =
          Except.error e → finish st id = Except.error e) ∧
      (∀ st₃ cRow, finish st id = Except.ok (st₃, cRow) →
         cRow = { c0 with finishedDate := some st.now } ∧
         cRow ∈ st₃.counts ∧
         (∀ d ∈ st₃.drifts, ¬ d.countId = id) ∧
         ∃ st₂, reconcileCount
             { st with counts := st.counts.map fun c =>
                 if c.id == id then { c0 with finishedDate := some st.now } else c } id =
             Except.ok st₂ ∧ st₃ = clearDrifts st₂ id none) := by
  constructor
  · intro hnone
    unfold finish
    rw [hnone]
  · intro c0 hc0
    constructor
    · intro e he
      unfold finish
      rw [hc0]
      dsimp only
      rw [he]
      rfl
    · intro st₃ cRow hok
      unfold finish at hok
      rw [hc0] at hok
      dsimp only at hok
      rcases hrec : reconcileCount
          { st with counts := st.counts.map fun c =>
              if c.id == id then { c0 with finishedDate := some st.now } else c } id with
        e' | st₂
      · rw [hrec] at hok
        rw [except_bind_err] at hok
        exact absurd hok (by simp)
      · rw [hrec] at hok
        rw [except_bind_ok] at hok
        have hpair := Except.ok.inj hok
        injection hpair with h1 h2
        have hcid : c0.id = id := by simpa using List.find?_some hc0
        refine ⟨h2.symm, ?_, ?_, ⟨st₂, rfl, by rw [← h1, hcid]⟩⟩
        · rw [← h2, ← h1]
          show { c0 with finishedDate := some st.now } ∈ st₂.counts
          rw [(reconcileCount_ok_frame hrec).2.1]
          exact List.mem_map.2 ⟨c0, List.mem_of_find?_eq_some hc0, by simp [hcid]⟩
        · intro d hd
          rw [← h1] at hd
          simp only [clearDrifts] at hd
          have := List.of_mem_filter hd
          simp only [hcid] at this
          simpa using this

/-- Whether a reconciliation event is a batch-scoped overwrite. -/
def RecEvent.isBatchOverwrite : RecEvent → Bool
  | .batchOverwrite _ _ => true
  | _ => false

theorem resolveGeneric_events {excl : Batch → Bool} {acc acc₁ : DB × List RecEvent}
    {c : ItemCountRow} (h : resolveGeneric excl acc c = Except.ok acc₁) :
    acc₁.2 = acc.2 ∨
    ∃ ev, acc₁.2 = acc.2 ++ [ev] ∧ ev.isBatchOverwrite = false := by
  unfold resolveGeneric at h
  by_cases h0 : c.countedQty - getItemQty acc.1 c.itemId BatchStatus.active excl = 0
  · rw [if_pos h0] at h
    injection h with h1
    rw [← h1]
    exact Or.inl rfl
  · rw [if_neg h0] at h
    by_cases hneg : c.countedQty - getItemQty acc.1 c.itemId BatchStatus.active excl < 0
    · rw [if_pos hneg] at h
      rcases hc : consume acc.1 c.itemId
          |c.countedQty - getItemQty acc.1 c.itemId BatchStatus.active excl|
          ConsumptionMethod.fifo excl with e | out
      · rw [hc] at h
        rw [except_bind_err] at h
        exact absurd h (by simp)
      · rw [hc] at h
        rw [except_bind_ok] at h
        by_cases hrem : out.2 = 0
        · rw [if_pos hrem] at h
          injection h with h1
          rw [← h1]
          exact Or.inr ⟨_, rfl, rfl⟩
        · rw [if_neg hrem] at h
          exact absurd h (by simp)
    · rw [if_neg hneg] at h
      rcases hr : receive acc.1
          { itemId := c.itemId,
            qty := c.countedQty - getItemQty acc.1 c.itemId BatchStatus.active excl } with
        e | p
      · rw [hr] at h
        dsimp only at h
        injection h with h1
        rw [← h1]
        exact Or.inl rfl
      · rw [hr] at h
        dsimp only at h
        injection h with h1
        rw [← h1]
        exact Or.inr ⟨_, rfl, rfl⟩

theorem applyBatchAdjustment_events {acc acc₁ : DB × List RecEvent} {c : ItemCountRow}
    (h : applyBatchAdjustment acc c = Except.ok acc₁) :
    acc₁.2 = acc.2 ∨
    ∃ bid q, acc₁.2 = acc.2 ++ [RecEvent.batchOverwrite bid q] := by
  unfold applyBatchAdjustment at h
  rcases hb : c.batchId with _ | bid
  · rw [hb] at h
    injection h with h1
    rw [← h1]
    exact Or.inl rfl
  · rw [hb] at h
    dsimp only at h
    rcases hu : updateBatch acc.1 bid
        { qty := some c.countedQty,
          status := some (if c.countedQty = 0 then BatchStatus.archived
            else BatchStatus.active) } with e | st2
    · rw [hu] at h
      rw [except_bind_err] at h
      exact absurd h (by simp)
    · rw [hu] at h
      rw [except_bind_ok] at h
      injection h with h1
      rw [← h1]
      exact Or.inr ⟨bid, c.countedQty, rfl⟩

theorem reconcileCountAux_ok_elim {st : DB} {countId : Nat} {p : DB × List RecEvent}
    (h : reconcileCountAux st countId = Except.ok p) :
    ∃ ag, (((st.itemCounts.filter fun c => c.countId == countId).filter
        fun c => c.batchId.isNone).foldlM
        (resolveGeneric fun b =>
          !(((st.itemCounts.filter fun c => c.countId == countId).filter
              fun c => c.batchId.isSome).filterMap (·.batchId)).contains b.id)
        (st, [])) = Except.ok ag ∧
      (((st.itemCounts.filter fun c => c.countId == countId).filter
          fun c => c.batchId.isSome).foldlM applyBatchAdjustment ag) = Except.ok p := by
  unfold reconcileCountAux at h
  dsimp only at h
  rcases hg : ((st.itemCounts.filter fun c => c.countId == countId).filter
      fun c => c.batchId.isNone).foldlM
      (resolveGeneric fun b =>
        !(((st.itemCounts.filter fun c => c.countId == countId).filter
            fun c => c.batchId.isSome).filterMap (·.batchId)).contains b.id)
      (st, []) with e | ag
  · rw [hg] at h
    rw [except_bind_err] at h
    exact absurd h (by simp)
  · rw [hg] at h
    rw [except_bind_ok] at h
    rcases hbf : ((st.itemCounts.filter fun c => c.countId == countId).filter
        fun c => c.batchId.isSome).foldlM applyBatchAdjustment ag with e | ab
    · rw [hbf] at h
      rw [except_bind_err] at h
      exact absurd h (by simp)
    · rw [hbf] at h
      rw [except_bind_ok] at h
      obtain rfl : ab = p := Except.ok.inj h
      exact ⟨ag, hg, hbf⟩

/-- C4 (amended).  Within a reconciliation transaction the generic entries
are resolved BEFORE the batch-scoped entries (the reverse of the claimed
order; the outcome is as if batch-scoped entries came first because the
generic resolution excludes every batch they name): in every successful
run the event trace is all generic-resolution events followed by all
batch-overwrite events.  Each batch-scoped entry is applied directly, with
no consumption ordering involved: the named batch's quantity is
overwritten with the counted quantity and its status becomes archived
exactly when that quantity is zero, active otherwise, while batches not
named are untouched by that application. -/
theorem reconcile_application_spec (st : DB) (countId : Nat) :
    (∀ st₂ evs, reconcileCountAux st countId = Except.ok (st₂, evs) →
       ∃ gEvs bEvs, evs = gEvs ++ bEvs ∧
         (∀ e ∈ gEvs, RecEvent.isBatchOverwrite e = false) ∧
         (∀ e ∈ bEvs, RecEvent.isBatchOverwrite e = true)) ∧
    (∀ (acc acc₁ : DB × List RecEvent) (c : ItemCountRow) (bid : Nat),
       c.batchId = some bid → applyBatchAdjustment acc c = Except.ok acc₁ →
       acc₁.2 = acc.2 ++ [RecEvent.batchOverwrite bid c.countedQty] ∧
       (∀ b ∈ acc.1.batches, b.id = bid →
          { b with
            qty := c.countedQty,
            status := if c.countedQty = 0 then BatchStatus.archived
              else BatchStatus.active } ∈ acc₁.1.batches) ∧
       (∀ b ∈ acc.1.batches, b.id ≠ bid → b ∈ acc₁.1.batches)) := by
  constructor
  · intro st₂ evs h
    obtain ⟨ag, hg, hbf⟩ := reconcileCountAux_ok_elim h
    have hGenAll := @foldlM_except_inv (DB × List RecEvent) ItemCountRow
      (fun a : DB × List RecEvent => ∀ e ∈ a.2, RecEvent.isBatchOverwrite e = false)
      _ _
      (fun s a s₁ _ hstep hPs => by
        rcases resolveGeneric_events hstep with hsame | ⟨ev, happ, hev⟩
        · rw [hsame]
          exact hPs
        · rw [happ]
          intro e he
          rcases List.mem_append.1 he with hm | hm
          · exact hPs e hm
          · rw [List.mem_singleton.1 hm]
            exact hev)
      (st, []) ag hg (by intro e he; simp at he)
    have hSplit := @foldlM_except_inv (DB × List RecEvent) ItemCountRow
      (fun a : DB × List RecEvent =>
        ∃ gEvs bEvs, a.2 = gEvs ++ bEvs ∧
          (∀ e ∈ gEvs, RecEvent.isBatchOverwrite e = false) ∧
          (∀ e ∈ bEvs, RecEvent.isBatchOverwrite e = true))
      _ _
      (fun s a s₁ _ hstep hPs => by
        obtain ⟨gEvs, bEvs, hsp, hgf, hbt⟩ := hPs
        rcases applyBatchAdjustment_events hstep with hsame | ⟨bid, q, happ⟩
        · exact ⟨gEvs, bEvs, by rw [hsame, hsp], hgf, hbt⟩
        · refine ⟨gEvs, bEvs ++ [RecEvent.batchOverwrite bid q],
            by rw [happ, hsp, List.append_assoc], hgf, ?_⟩
          intro e he
          rcases List.mem_append.1 he with hm | hm
          · exact hbt e hm
          · rw [List.mem_singleton.1 hm]
            rfl)
      ag (st₂, evs) hbf ⟨ag.2, [], by simp, hGenAll, by simp⟩
    exact hSplit
  · intro acc acc₁ c bid hbid h
    unfold applyBatchAdjustment at h
    rw [hbid] at h
    dsimp only at h
    rcases hu : updateBatch acc.1 bid
        { qty := some c.countedQty,
          status := some (if c.countedQty = 0 then BatchStatus.archived
            else BatchStatus.active) } with e | st2
    · rw [hu] at h
      rw [except_bind_err] at h
      exact absurd h (by simp)
    · rw [hu] at h
      rw [except_bind_ok] at h
      injection h with h1
      obtain ⟨hbs, -⟩ := updateBatch_ok hu
      refine ⟨by rw [← h1], ?_, ?_⟩
      · intro b hbmem hid
        have : acc₁.1.batches = st2.batches := by rw [← h1]
        rw [this, hbs]
        refine List.mem_map.2 ⟨b, hbmem, ?_⟩
        rw [if_pos (by simpa using hid)]
        simp [applyBatchUpdate]
      · intro b hbmem hid
        have : acc₁.1.batches = st2.batches := by rw [← h1]
        rw [this, hbs]
        refine List.mem_map.2 ⟨b, hbmem, ?_⟩
        rw [if_neg (by simpa using hid)]

/-- C9.  Applying one batch-scoped count entry during reconciliation
mutates only the named batch, and on that batch only the quantity and
status columns: every other batch row is preserved unchanged, every other
column of the named batch (identity, item, dates, location, supplier,
price) is preserved, and the non-batch tables are untouched. -/
theorem batch_adjustment_frame (acc acc₁ : DB × List RecEvent) (c : ItemCountRow)
    (bid : Nat) (hbid : c.batchId = some bid)
    (h : applyBatchAdjustment acc c = Except.ok acc₁) :
    acc₁.1.items = acc.1.items ∧ acc₁.1.counts = acc.1.counts ∧
    acc₁.1.itemCounts = acc.1.itemCounts ∧ acc₁.1.drifts = acc.1.drifts ∧
    (∀ b ∈ acc.1.batches, b.id ≠ bid → b ∈ acc₁.1.batches) ∧
    (∀ b₁ ∈ acc₁.1.batches, ∃ b ∈ acc.1.batches,
       b₁.id = b.id ∧ b₁.itemId = b.itemId ∧ b₁.createdDate = b.createdDate ∧
       b₁.expiryDate = b.expiryDate ∧ b₁.stockoutDate = b.stockoutDate ∧
       b₁.locationId = b.locationId ∧ b₁.supplierId = b.supplierId ∧
       b₁.unitBuyPrice = b.unitBuyPrice ∧ (b.id ≠ bid → b₁ = b)) := by
  unfold applyBatchAdjustment at h
  rw [hbid] at h
  dsimp only at h
  rcases hu : updateBatch acc.1 bid
      { qty := some c.countedQty,
        status := some (if c.countedQty = 0 then BatchStatus.archived
          else BatchStatus.active) } with e | st2
  · rw [hu] at h
    rw [except_bind_err] at h
    exact absurd h (by simp)
  · rw [hu] at h
    rw [except_bind_ok] at h
    injection h with h1
    obtain ⟨hbs, hit, hct, hic, hdr, -⟩ := updateBatch_ok hu
    have hb₁ : acc₁.1 = st2 := by rw [← h1]
    rw [hb₁]
    refine ⟨hit, hct, hic, hdr, ?_, ?_⟩
    · intro b hbmem hid
      rw [hbs]
      refine List.mem_map.2 ⟨b, hbmem, ?_⟩
      rw [if_neg (by simpa using hid)]
    · intro b₁ hb₁mem
      rw [hbs] at hb₁mem
      rcases List.mem_map.1 hb₁mem with ⟨b, hb, hfb⟩
      by_cases hid : b.id == bid
      · rw [if_pos hid] at hfb
        refine ⟨b, hb, ?_⟩
        rw [← hfb]
        refine ⟨rfl, rfl, rfl, rfl, rfl, rfl, rfl, rfl, ?_⟩
        intro hne
        exact absurd (by simpa using hid) hne
      · rw [if_neg hid] at hfb
        exact ⟨b, hb, by rw [hfb], by rw [hfb], by rw [hfb], by rw [hfb], by rw [hfb],
          by rw [hfb], by rw [hfb], by rw [hfb], fun _ => hfb.symm⟩

section ConcreteReconcile

attribute [local semireducible] Rat.add Rat.sub

/-- Fixture for the reconciliation-order claims: batches 10 (qty 10) and 12
(qty 5); the open session 50 holds one generic count of 8 and one
batch-scoped count of batch 12 with quantity 7. -/
def orderSt : DB :=
  { items := [exItem],
    batches := [exBatchA, { exBatchA with id := 12, qty := 5, createdDate := 2 }],
    counts := [exCount],
    itemCounts :=
      [{ countId := 50, itemId := 1, batchId := none, countedQty := 8, countedDate := 6 },
       { countId := 50, itemId := 1, batchId := some 12, countedQty := 7, countedDate := 6 }],
    drifts := [], nextId := 100, now := 77 }

/-- Counterexample to C4 as stated: in this successful reconciliation run
the recorded mutation trace performs the generic resolution FIRST and the
batch-scoped overwrite SECOND, so batch-scoped entries are not applied
before generic entries. -/
theorem reconcile_order_counterexample :
    ((reconcileCountAux orderSt 50).map (·.2)) =
      Except.ok [RecEvent.genericConsume 1 2, RecEvent.batchOverwrite 12 7] ∧
    RecEvent.isBatchOverwrite (RecEvent.genericConsume 1 2) = false ∧
    RecEvent.isBatchOverwrite (RecEvent.batchOverwrite 12 7) = true := by
  refine ⟨by decide, rfl, rfl⟩

/-- Witness for `reconcile_application_spec`: the trace of the concrete run
splits into generic events followed by batch-overwrite events. -/
theorem reconcile_application_spec_witness :
    ∃ gEvs bEvs,
      [RecEvent.genericConsume 1 2, RecEvent.batchOverwrite 12 7] = gEvs ++ bEvs ∧
      (∀ e ∈ gEvs, RecEvent.isBatchOverwrite e = false) ∧
      (∀ e ∈ bEvs, RecEvent.isBatchOverwrite e = true) := by
  rcases haux : reconcileCountAux orderSt 50 with e | p
  · exfalso
    have hok : (reconcileCountAux orderSt 50).isOk = true := by decide
    rw [haux] at hok
    simp [Except.isOk, Except.toBool] at hok
  · have hevs : p.2 = [RecEvent.genericConsume 1 2, RecEvent.batchOverwrite 12 7] := by
      have hm : (reconcileCountAux orderSt 50).map (·.2) =
          Except.ok [RecEvent.genericConsume 1 2, RecEvent.batchOverwrite 12 7] := by decide
      rw [haux] at hm
      simpa [Except.map] using hm
    obtain ⟨g, b, hsplit, hg, hb⟩ :=
      (reconcile_application_spec orderSt 50).1 p.1 p.2 haux
    exact ⟨g, b, by rw [← hevs, hsplit], hg, hb⟩

/-- Fixture for the finish witness: two batches of 10 and 5, an open
session 50 with one generic count of 3 and an accumulated drift row. -/
def finishSt : DB :=
  { items := [exItem], batches := [exBatchA, exBatchB], counts := [exCount],
    itemCounts := [{ countId := 50, itemId := 1, batchId := none, countedQty := 3,
                     countedDate := 6 }],
    drifts := [{ countId := 50, itemId := 1, qtyChange := 2, driftDate := 66 }],
    nextId := 100, now := 77 }

/-- Witness for `finish_spec`: finishing session 50 succeeds, returns the
stamped session row, stores it, and clears the session's drift; finishing
an unknown session id fails with NotFound. -/
theorem finish_spec_witness :
    (∃ st₃ cRow, finish finishSt 50 = Except.ok (st₃, cRow) ∧
       cRow = { exCount with finishedDate := some 77 } ∧
       cRow ∈ st₃.counts ∧ (∀ d ∈ st₃.drifts, ¬ d.countId = 50)) ∧
    finish finishSt 99 = Except.error ServiceError.notFound := by
  constructor
  · rcases hfin : finish finishSt 50 with e | p
    · exfalso
      have hok : (finish finishSt 50).isOk = true := by decide
      rw [hfin] at hok
      simp [Except.isOk, Except.toBool] at hok
    · obtain ⟨hrow, hmem, hdr, -⟩ :=
        ((finish_spec finishSt 50).2 exCount (by decide)).2 p.1 p.2 hfin
      exact ⟨p.1, p.2, rfl, hrow, hmem, hdr⟩
  · exact (finish_spec finishSt 99).1 (by decide)

/-- Fixture for the C5 counterexample: the item has NO batches, the open
session 50 holds one generic count of 5 (a found-stock observation) and
one accumulated drift row. -/
def dropSt : DB :=
  { items := [exItem], batches := [], counts := [exCount],
    itemCounts := [{ countId := 50, itemId := 1, batchId := none, countedQty := 5,
                     countedDate := 6 }],
    drifts := [{ countId := 50, itemId := 1, qtyChange := 2, driftDate := 66 }],
    nextId := 100, now := 77 }

/-- Counterexample to C5 as stated: finishing this session SUCCEEDS — the
session row is stamped and stored and the drift rows are deleted — yet the
found-stock observation (the generic count of 5 against an on-hand
quantity of 0, a positive offset) left no trace in the ledger: no batch
was ever created, because the nested `receive` failed and `reconcileCount`
discarded its error tuple. The finish is therefore not all-or-nothing:
it partially commits, silently dropping the recorded observation. -/
theorem finish_partial_commit_counterexample :
    getItemQty dropSt 1 BatchStatus.active (fun _ => true) = 0 ∧
    (∃ c ∈ dropSt.itemCounts, c.countId = 50 ∧ c.batchId = none ∧ c.countedQty = 5) ∧
    ((finish dropSt 50).map fun p => (p.1.batches, p.1.drifts, p.2.finishedDate)) =
      Except.ok ([], [], some 77) := by
  refine ⟨rfl, by decide, by decide⟩

/-- Fixture batch-scoped count entry naming batch 10 with quantity 4. -/
def frameCount : ItemCountRow :=
  { countId := 50, itemId := 1, batchId := some 10, countedQty := 4, countedDate := 6 }

/-- Witness for `batch_adjustment_frame`: applying the concrete
batch-scoped entry succeeds and leaves batch 11 untouched. -/
theorem batch_adjustment_frame_witness :
    ∃ acc₁, applyBatchAdjustment (exDB, []) frameCount = Except.ok acc₁ ∧
      (∀ b ∈ exDB.batches, b.id ≠ 10 → b ∈ acc₁.1.batches) := by
  rcases happ : applyBatchAdjustment (exDB, []) frameCount with e | acc₁
  · exfalso
    have hok : (applyBatchAdjustment (exDB, []) frameCount).isOk = true := by decide
    rw [happ] at hok
    simp [Except.isOk, Except.toBool] at hok
  · obtain ⟨-, -, -, -, hframe, -⟩ :=
      batch_adjustment_frame (exDB, []) acc₁ frameCount 10 rfl happ
    exact ⟨acc₁, rfl, hframe⟩

end ConcreteReconcile

end Countday
